import Mathlib

/-!
Shallow embedding of the feature-complete websocket chat relay
(the variant with JWT authentication, membership checks, rate limiting
and presence tracking) and proofs about its handlers.

Strings model JavaScript strings, `List` models JS arrays/Sets (with
explicit set discipline mirroring `Set.add`/`Set.delete`), association
lists model the `activeUsers : Record<string, Set<string>>` object, and
the outcomes of the external calls (jwt.verify, the prisma membership
query, the persistence fetch) are passed in as explicit parameters.
-/

namespace WsRelay

/-! ### Content sanitization

Embeds `content.replace(/</g, "&lt;").replace(/>/g, "&gt;")` from the
message handler: a global character-by-character replacement, the two
replacements applied in sequence. -/

/-- Global replacement of the character `c` by the character list `r`,
the list-of-characters core of JavaScript `String.replace` with a
global single-character pattern. -/
def replaceAllChar (c : Char) (r : List Char) : List Char → List Char
  | [] => []
  | x :: xs =>
      if x = c then r ++ replaceAllChar c r xs else x :: replaceAllChar c r xs

/-- JavaScript `s.replace(/c/g, r)` for a single character `c`. -/
def jsReplace (s : String) (c : Char) (r : String) : String :=
  String.mk (replaceAllChar c r.data s.data)

/-- The `sanitizedContent` computation of the message handler:
`content.replace(/</g, "&lt;").replace(/>/g, "&gt;")`. -/
def sanitizedContent (content : String) : String :=
  jsReplace (jsReplace content '<' "&lt;") '>' "&gt;"

/-- Per-character sanitization map as the spec words it: `<` becomes
`&lt;`, `>` becomes `&gt;`, every other character is untouched.
Used to compare the source-side `sanitizedContent` against the spec. -/
def sanitizeSpecChar (c : Char) : List Char :=
  if c = '<' then "&lt;".data else if c = '>' then "&gt;".data else [c]

/-- Spec-side sanitizer on character lists. -/
def sanitizeSpecList : List Char → List Char
  | [] => []
  | c :: cs => sanitizeSpecChar c ++ sanitizeSpecList cs

/-- Spec-side sanitizer on strings. -/
def sanitizeSpec (s : String) : String :=
  String.mk (sanitizeSpecList s.data)

/-! ### Data model

`Socket` models one live socket.io connection: its id, the username
bound by the JWT middleware (`socket.data.username`), and the set of
rooms it has joined (`socket.join`/`socket.leave`).  `SrvState` models
the process state: the live sockets, the
`activeUsers : Record<string, Set<string>>` presence map, and the
per-socket-id state of the `RateLimiterMemory({points: 5, duration: 10})`
instance. -/

/-- One live connection. -/
structure Socket where
  sid : String
  username : String
  rooms : List String
deriving DecidableEq

/-- One key's record inside `RateLimiterMemory`: consumed points and the
instant (in seconds) at which the window expires. -/
structure RLState where
  consumed : Nat
  expiry : Nat
deriving DecidableEq

/-- Whole-process state. -/
structure SrvState where
  sockets : List Socket
  activeUsers : List (String × List String)
  rlMap : List (String × RLState)
deriving DecidableEq

/-- The canonical persisted record returned by the persistence API
(the `Message` interface). -/
structure Message where
  id : Nat
  content : String
  userId : Nat
  chatRoomId : Nat
  createdAt : String
  messageType : String
deriving DecidableEq

/-- The `user` object of a `message` payload. -/
structure UserPayload where
  username : String
deriving DecidableEq

/-- The payload of an inbound `message` event.  `user` is `none` when the
payload carries no user object; `messageType` is `none` when the field is
omitted (the destructuring default `messageType = "text"` then applies). -/
structure MessageData where
  roomId : String
  content : String
  user : Option UserPayload
  messageType : Option String
deriving DecidableEq

/-- The body of the persistence `fetch`:
`{content: sanitizedContent, chatRoomName: roomId, user: {username: user.username}}`. -/
structure PersistRequest where
  content : String
  chatRoomName : String
  username : String
deriving DecidableEq

/-- Outcome of the persistence `fetch` call: a 2xx response carrying the
saved record, a non-ok response, or a thrown error (network failure or
body-parse failure). -/
inductive PersistOutcome where
  | ok (saved : Message)
  | httpError
  | thrown
deriving DecidableEq

/-- Outcome of the `prisma.chatRoomMembership.findFirst` membership
query: a record found, `null`, or a thrown error. -/
inductive MembershipResult where
  | found
  | notFound
  | queryError
deriving DecidableEq

/-- Outcome of `jwt.verify` on a presented token. -/
inductive VerifyResult where
  | ok (username : String)
  | invalid
deriving DecidableEq

/-- Everything the server emits that a client can observe:
`socket.emit("error", reason)` to one socket, and the three
`io.to(room).emit` broadcasts. -/
inductive OutEvent where
  | errorTo (sid : String) (reason : String)
  | userJoined (room : String) (user : String) (message : String) (timestamp : String)
  | userLeft (room : String) (user : String) (message : String) (timestamp : String)
  | messageTo (room : String) (saved : Message) (user : Option UserPayload)
      (messageType : String) (timestamp : String)
deriving DecidableEq

/-- Inbound events.  The outcomes of the external calls (jwt.verify, the
membership query, the persistence fetch) and the clock reading at the
rate-limiter consume are carried on the event. -/
inductive Event where
  | connect (sid : String) (token : Option String) (vr : VerifyResult)
  | joinRoom (sid room : String) (m : MembershipResult)
  | message (sid : String) (md : MessageData) (persist : PersistOutcome) (now : Nat)
  | leaveRoom (sid room : String)
  | disconnect (sid : String)

/-! ### List and association-list helpers with JS `Set`/object semantics -/

/-- Membership test on a list of strings (JS `Set.has`). -/
def memStr : List String → String → Bool
  | [], _ => false
  | y :: ys, x => if y = x then true else memStr ys x

/-- JS `Set.add`: append if absent. -/
def setAdd (l : List String) (x : String) : List String :=
  if memStr l x then l else l ++ [x]

/-- JS `Set.delete`: remove every occurrence. -/
def setDelete : List String → String → List String
  | [], _ => []
  | y :: ys, x => if y = x then setDelete ys x else y :: setDelete ys x

/-- Lookup in the `activeUsers` object (first matching key). -/
def lookupRoom : List (String × List String) → String → Option (List String)
  | [], _ => none
  | (r, l) :: rest, room => if r = room then some l else lookupRoom rest room

/-- Does the object have the key? -/
def hasKey : List (String × List String) → String → Bool
  | [], _ => false
  | (r, _) :: rest, room => if r = room then true else hasKey rest room

/-- Replace the value stored at a key (no-op when the key is absent). -/
def replaceRoom : List (String × List String) → String → List String →
    List (String × List String)
  | [], _, _ => []
  | (r, l0) :: rest, room, l =>
      if r = room then (r, l) :: rest else (r, l0) :: replaceRoom rest room l

/-- `delete activeUsers[room]`. -/
def deleteRoom : List (String × List String) → String → List (String × List String)
  | [], _ => []
  | (r, l0) :: rest, room =>
      if r = room then deleteRoom rest room else (r, l0) :: deleteRoom rest room

/-- The `joinRoom` presence update: create the entry if missing, then add
the username to the room's set. -/
def addPresence (au : List (String × List String)) (room u : String) :
    List (String × List String) :=
  match lookupRoom au room with
  | none => au ++ [(room, [u])]
  | some l => replaceRoom au room (setAdd l u)

/-- The `leaveRoom` presence update (only reached when the entry exists):
delete the username, drop the entry if the set became empty. -/
def removePresence (au : List (String × List String)) (room u : String)
    (l : List String) : List (String × List String) :=
  if (setDelete l u).isEmpty then deleteRoom au room
  else replaceRoom au room (setDelete l u)

/-- The `disconnect` cleanup loop over `activeUsers`: delete the username
from every room's set and drop entries that became empty. -/
def disconnectPresence (au : List (String × List String)) (u : String) :
    List (String × List String) :=
  match au with
  | [] => []
  | (r, l) :: rest =>
      if (setDelete l u).isEmpty then disconnectPresence rest u
      else (r, setDelete l u) :: disconnectPresence rest u

/-- Find a live socket by id (first match). -/
def findSock : List Socket → String → Option Socket
  | [], _ => none
  | k :: ks, sid => if k.sid = sid then some k else findSock ks sid

/-- Update every socket with the given id. -/
def updateSock (ks : List Socket) (sid : String) (f : Socket → Socket) :
    List Socket :=
  ks.map (fun k => if k.sid = sid then f k else k)

/-- Remove a socket by id. -/
def removeSock (ks : List Socket) (sid : String) : List Socket :=
  ks.filter (fun k => k.sid ≠ sid)

/-- `socket.join(room)`: socket.io room joins are idempotent. -/
def joinRooms (l : List String) (room : String) : List String :=
  if memStr l room then l else l ++ [room]

/-- Lookup in the rate-limiter key map. -/
def rlLookup : List (String × RLState) → String → Option RLState
  | [], _ => none
  | (k0, v) :: rest, k => if k0 = k then some v else rlLookup rest k

/-- Store a key's limiter record (replace or append). -/
def rlSet : List (String × RLState) → String → RLState → List (String × RLState)
  | [], k, v => [(k, v)]
  | (k0, v0) :: rest, k, v =>
      if k0 = k then (k0, v) :: rest else (k0, v0) :: rlSet rest k v

/-- `rateLimiter.consume(key)` of `RateLimiterMemory({points: 5, duration: 10})`:
a missing or expired record starts a fresh window with one consumed point;
inside a live window the point is granted while fewer than 5 are consumed,
otherwise the call rejects. -/
def rlConsume (m : List (String × RLState)) (k : String) (now : Nat) :
    Bool × List (String × RLState) :=
  match rlLookup m k with
  | none => (true, rlSet m k ⟨1, now + 10⟩)
  | some r =>
      if r.expiry ≤ now then (true, rlSet m k ⟨1, now + 10⟩)
      else if r.consumed < 5 then (true, rlSet m k ⟨r.consumed + 1, r.expiry⟩)
      else (false, m)

/-! ### The handlers -/

/-- The JWT middleware `io.use((socket, next) => ...)`: a missing (or
empty, which is falsy) token and a failed `jwt.verify` refuse the
connection with distinct authentication errors; on success the verified
username is returned to be bound to the connection. -/
def authMiddleware (token : Option String) (vr : VerifyResult) :
    Except String String :=
  if token.getD "" = "" then Except.error "Authentication error: Missing token"
  else
    match vr with
    | VerifyResult.ok u => Except.ok u
    | VerifyResult.invalid => Except.error "Authentication error: Invalid token"

/-- `user?.username`, the empty string when the payload has no user. -/
def userNameOf (md : MessageData) : String :=
  (md.user.map UserPayload.username).getD ""

/-- The malformed-payload guard `if (!content || !user?.username)`. -/
def malformedMsg (md : MessageData) : Bool :=
  md.content = "" || userNameOf md = ""

/-- The `message` handler of the feature-complete variant: validate the
payload shape, consume the rate limiter keyed by socket id, sanitize the
content, attempt the persistence fetch, and broadcast the saved record
(spread together with the payload `user` object, the destructured
`messageType` defaulting to `"text"`, and a relay timestamp) only when
persistence succeeded.  Returns the updated limiter map, the emitted
events, and the persistence request body when the fetch was reached. -/
def handleMessage (rl : List (String × RLState)) (sid : String)
    (md : MessageData) (persist : PersistOutcome) (now : Nat)
    (nowIso : String) :
    List (String × RLState) × List OutEvent × Option PersistRequest :=
  if malformedMsg md then (rl, [], none)
  else
    match rlConsume rl sid now with
    | (false, rl') =>
        (rl', [OutEvent.errorTo sid "Rate limit exceeded. Please slow down."], none)
    | (true, rl') =>
        let req : PersistRequest :=
          ⟨sanitizedContent md.content, md.roomId, userNameOf md⟩
        match persist with
        | PersistOutcome.httpError => (rl', [], some req)
        | PersistOutcome.thrown => (rl', [], some req)
        | PersistOutcome.ok saved =>
            (rl',
             [OutEvent.messageTo md.roomId saved md.user
               (md.messageType.getD "text") nowIso],
             some req)

/-- One event of the server.  `nowIso` is the `new Date().toISOString()`
reading used in emitted timestamps.  Events carrying a socket id of no
live socket are ignored: a refused or closed transport has no registered
handlers. -/
def step (s : SrvState) (nowIso : String) : Event →
    SrvState × List OutEvent × Option PersistRequest
  | Event.connect sid token vr =>
      match authMiddleware token vr with
      | Except.error _ => (s, [], none)
      | Except.ok u =>
          ({ s with sockets := s.sockets ++ [⟨sid, u, []⟩] }, [], none)
  | Event.joinRoom sid room m =>
      match findSock s.sockets sid with
      | none => (s, [], none)
      | some k =>
          match m with
          | MembershipResult.queryError =>
              (s, [OutEvent.errorTo sid "Failed to join room due to a server error."], none)
          | MembershipResult.notFound =>
              (s, [OutEvent.errorTo sid "Access Denied: You are not a member of this room."], none)
          | MembershipResult.found =>
              ({ s with
                  sockets := updateSock s.sockets sid
                    (fun k0 => { k0 with rooms := joinRooms k0.rooms room }),
                  activeUsers := addPresence s.activeUsers room k.username },
               [OutEvent.userJoined room k.username
                 (k.username ++ " has joined the room.") nowIso],
               none)
  | Event.message sid md persist now =>
      match findSock s.sockets sid with
      | none => (s, [], none)
      | some _ =>
          let r := handleMessage s.rlMap sid md persist now nowIso
          ({ s with rlMap := r.1 }, r.2.1, r.2.2)
  | Event.leaveRoom sid room =>
      match findSock s.sockets sid with
      | none => (s, [], none)
      | some k =>
          let sockets' := updateSock s.sockets sid
            (fun k0 => { k0 with rooms := setDelete k0.rooms room })
          match lookupRoom s.activeUsers room with
          | none => ({ s with sockets := sockets' }, [], none)
          | some l =>
              ({ s with
                  sockets := sockets',
                  activeUsers := removePresence s.activeUsers room k.username l },
               [OutEvent.userLeft room k.username
                 (k.username ++ " has left the room.") nowIso],
               none)
  | Event.disconnect sid =>
      match findSock s.sockets sid with
      | none => (s, [], none)
      | some k =>
          ({ s with
              sockets := removeSock s.sockets sid,
              activeUsers := disconnectPresence s.activeUsers k.username },
           [], none)

/-! ### Observations -/

/-- Is the identity in the room's presence set? -/
def presenceOf (s : SrvState) (room ident : String) : Bool :=
  memStr ((lookupRoom s.activeUsers room).getD []) ident

/-- Is there a live connection bound to the identity that has the room in
its joined-room set? -/
def hasLiveConn : List Socket → String → String → Bool
  | [], _, _ => false
  | k :: ks, room, ident =>
      (decide (k.username = ident) && memStr k.rooms room) || hasLiveConn ks room ident

/-- The presence invariant of the spec: an identity appears in a room's
presence set iff at least one live connection bound to that identity has
the room in its joined-room set. -/
def PresenceInv (s : SrvState) : Prop :=
  ∀ room ident, presenceOf s room ident = hasLiveConn s.sockets room ident

/-- No two distinct live sockets share a socket id. -/
def UniqSid (s : SrvState) : Prop :=
  ∀ k1 ∈ s.sockets, ∀ k2 ∈ s.sockets, k1.sid = k2.sid → k1 = k2

/-- At most one live connection per identity
(the single-connection-per-identity usage pattern). -/
def UniqIdent (s : SrvState) : Prop :=
  ∀ k1 ∈ s.sockets, ∀ k2 ∈ s.sockets, k1.username = k2.username → k1 = k2

/-- `activeUsers` has no duplicate keys (JS object semantics). -/
def keysNodup : List (String × List String) → Bool
  | [] => true
  | (r, _) :: rest => !(hasKey rest r) && keysNodup rest

/-- Well-formedness of a server state. -/
def StateWf (s : SrvState) : Prop :=
  keysNodup s.activeUsers = true ∧ UniqSid s ∧ UniqIdent s

/-- Well-formedness of an event against a state: a connect presents a
fresh socket id and, when accepted, an identity with no other live
connection (single-connection-per-identity). -/
def WfEvent (s : SrvState) : Event → Prop
  | Event.connect sid token vr =>
      (∀ k ∈ s.sockets, k.sid ≠ sid) ∧
      (∀ u, authMiddleware token vr = Except.ok u →
        ∀ k ∈ s.sockets, k.username ≠ u)
  | _ => True

theorem replaceAllChar_append (c : Char) (r a b : List Char) :
    replaceAllChar c r (a ++ b) = replaceAllChar c r a ++ replaceAllChar c r b := by
  induction a with
  | nil => rfl
  | cons x xs ih =>
      simp only [List.cons_append, replaceAllChar]
      by_cases hx : x = c
      · simp [hx, ih]
      · simp [hx, ih]

theorem mem_replaceAllChar {c : Char} {r l : List Char} {x : Char}
    (h : x ∈ replaceAllChar c r l) : x ∈ r ∨ (x ∈ l ∧ x ≠ c) := by
  induction l with
  | nil => simp [replaceAllChar] at h
  | cons y ys ih =>
      simp only [replaceAllChar] at h
      by_cases hy : y = c
      · rw [if_pos hy, List.mem_append] at h
        rcases h with h | h
        · exact Or.inl h
        · rcases ih h with h' | h'
          · exact Or.inl h'
          · exact Or.inr ⟨List.mem_cons_of_mem _ h'.1, h'.2⟩
      · rw [if_neg hy, List.mem_cons] at h
        rcases h with h | h
        · subst h; exact Or.inr ⟨List.mem_cons_self _ _, hy⟩
        · rcases ih h with h' | h'
          · exact Or.inl h'
          · exact Or.inr ⟨List.mem_cons_of_mem _ h'.1, h'.2⟩

theorem replaceAllChar_noop {c : Char} {r l : List Char}
    (h : ∀ x ∈ l, x ≠ c) : replaceAllChar c r l = l := by
  induction l with
  | nil => rfl
  | cons y ys ih =>
      simp only [replaceAllChar]
      rw [if_neg (h y (List.mem_cons_self _ _))]
      rw [ih (fun x hx => h x (List.mem_cons_of_mem _ hx))]

theorem replaceAllChar_cons_self (c : Char) (r : List Char) (xs : List Char) :
    replaceAllChar c r (c :: xs) = r ++ replaceAllChar c r xs := by
  simp [replaceAllChar]

theorem replaceAllChar_cons_ne {x c : Char} (r : List Char) (xs : List Char)
    (h : x ≠ c) :
    replaceAllChar c r (x :: xs) = x :: replaceAllChar c r xs := by
  simp [replaceAllChar, h]

theorem gt_chars : ∀ x ∈ "&gt;".data, x ≠ '<' ∧ x ≠ '>' := by decide

theorem lt_chars : ∀ x ∈ "&lt;".data, x ≠ '<' ∧ x ≠ '>' := by decide

/-- Characters of the fully sanitized list are never `<` or `>`. -/
theorem sanitized_no_markup {l : List Char} {x : Char}
    (h : x ∈ replaceAllChar '>' "&gt;".data (replaceAllChar '<' "&lt;".data l)) :
    x ≠ '<' ∧ x ≠ '>' := by
  rcases mem_replaceAllChar h with hgt | ⟨hin, hne⟩
  · exact gt_chars x hgt
  · refine ⟨?_, hne⟩
    rcases mem_replaceAllChar hin with hlt | ⟨_, hne2⟩
    · exact (lt_chars x hlt).1
    · exact hne2

theorem sanitizedContent_list_eq_spec (l : List Char) :
    replaceAllChar '>' "&gt;".data (replaceAllChar '<' "&lt;".data l) =
      sanitizeSpecList l := by
  induction l with
  | nil => rfl
  | cons c cs ih =>
      by_cases hlt : c = '<'
      · subst hlt
        rw [replaceAllChar_cons_self, replaceAllChar_append,
          replaceAllChar_noop (l := "&lt;".data)
            (fun x hx => (lt_chars x hx).2), ih]
        simp [sanitizeSpecList, sanitizeSpecChar]
      · by_cases hgt : c = '>'
        · subst hgt
          rw [replaceAllChar_cons_ne _ _ (show ('>' : Char) ≠ '<' from by decide),
            replaceAllChar_cons_self, ih]
          simp [sanitizeSpecList, sanitizeSpecChar]
        · rw [replaceAllChar_cons_ne _ _ hlt, replaceAllChar_cons_ne _ _ hgt, ih]
          simp [sanitizeSpecList, sanitizeSpecChar, hlt, hgt]

/-! ### Set / association-list lemmas -/

theorem memStr_append (a b : List String) (x : String) :
    memStr (a ++ b) x = (memStr a x || memStr b x) := by
  induction a with
  | nil => rfl
  | cons y ys ih =>
      simp only [List.cons_append, memStr]
      by_cases h : y = x
      · simp [h]
      · simp [h, ih]

theorem memStr_setAdd_self (l : List String) (x : String) :
    memStr (setAdd l x) x = true := by
  unfold setAdd
  by_cases h : memStr l x
  · simp [h]
  · simp [h, memStr_append, memStr]

theorem memStr_setAdd_ne (l : List String) {x y : String} (h : y ≠ x) :
    memStr (setAdd l x) y = memStr l y := by
  unfold setAdd
  by_cases hm : memStr l x
  · simp [hm]
  · simp [hm, memStr_append, memStr, Ne.symm h]

theorem memStr_setDelete_self (l : List String) (x : String) :
    memStr (setDelete l x) x = false := by
  induction l with
  | nil => rfl
  | cons y ys ih =>
      simp only [setDelete]
      by_cases h : y = x
      · simp [h, ih]
      · simp [memStr, h, ih]

theorem memStr_setDelete_ne (l : List String) {x y : String} (h : y ≠ x) :
    memStr (setDelete l x) y = memStr l y := by
  induction l with
  | nil => rfl
  | cons z zs ih =>
      simp only [setDelete, memStr]
      by_cases hz : z = x
      · subst hz
        rw [if_pos rfl, if_neg (fun hxy => h hxy.symm), ih]
      · simp only [if_neg hz, memStr]
        by_cases hzy : z = y
        · simp [hzy]
        · simp [hzy, ih]

theorem memStr_false_of_setDelete_isEmpty {l : List String} {u y : String}
    (h : (setDelete l u).isEmpty = true) (hy : y ≠ u) :
    memStr l y = false := by
  have := memStr_setDelete_ne l (x := u) hy
  rw [← this]
  cases hd : setDelete l u with
  | nil => rfl
  | cons a as => rw [hd] at h; simp [List.isEmpty] at h

theorem memStr_joinRooms_self (l : List String) (r : String) :
    memStr (joinRooms l r) r = true := by
  unfold joinRooms
  by_cases h : memStr l r
  · simp [h]
  · simp [h, memStr_append, memStr]

theorem memStr_joinRooms_ne (l : List String) {r q : String} (h : q ≠ r) :
    memStr (joinRooms l r) q = memStr l q := by
  unfold joinRooms
  by_cases hm : memStr l r
  · simp [hm]
  · simp [hm, memStr_append, memStr, Ne.symm h]

theorem lookupRoom_append (a b : List (String × List String)) (room : String) :
    lookupRoom (a ++ b) room =
      match lookupRoom a room with
      | some l => some l
      | none => lookupRoom b room := by
  induction a with
  | nil => rfl
  | cons p rest ih =>
      obtain ⟨r, l⟩ := p
      simp only [List.cons_append, lookupRoom]
      by_cases h : r = room
      · simp [h]
      · simp [h, ih]

theorem lookupRoom_replaceRoom_self (au : List (String × List String))
    (room : String) (l : List String) :
    lookupRoom (replaceRoom au room l) room =
      match lookupRoom au room with
      | some _ => some l
      | none => none := by
  induction au with
  | nil => rfl
  | cons p rest ih =>
      obtain ⟨r, l0⟩ := p
      simp only [replaceRoom, lookupRoom]
      by_cases h : r = room
      · simp [h, lookupRoom]
      · simp [h, lookupRoom, ih]

theorem lookupRoom_replaceRoom_ne (au : List (String × List String))
    {room q : String} (l : List String) (h : q ≠ room) :
    lookupRoom (replaceRoom au room l) q = lookupRoom au q := by
  induction au with
  | nil => rfl
  | cons p rest ih =>
      obtain ⟨r, l0⟩ := p
      simp only [replaceRoom, lookupRoom]
      by_cases hr : r = room
      · subst hr
        rw [if_pos rfl]
        simp only [lookupRoom]
        rw [if_neg (fun hq => h hq.symm), if_neg (fun hq => h hq.symm)]
      · simp only [if_neg hr, lookupRoom, ih]

theorem lookupRoom_deleteRoom_self (au : List (String × List String))
    (room : String) :
    lookupRoom (deleteRoom au room) room = none := by
  induction au with
  | nil => rfl
  | cons p rest ih =>
      obtain ⟨r, l0⟩ := p
      simp only [deleteRoom]
      by_cases h : r = room
      · simp [h, ih]
      · simp [lookupRoom, h, ih]

theorem lookupRoom_deleteRoom_ne (au : List (String × List String))
    {room q : String} (h : q ≠ room) :
    lookupRoom (deleteRoom au room) q = lookupRoom au q := by
  induction au with
  | nil => rfl
  | cons p rest ih =>
      obtain ⟨r, l0⟩ := p
      simp only [deleteRoom, lookupRoom]
      by_cases hr : r = room
      · subst hr
        rw [if_pos rfl, if_neg (fun hq => h hq.symm), ih]
      · simp only [if_neg hr, lookupRoom, ih]

theorem lookupRoom_addPresence_self (au : List (String × List String))
    (room u : String) :
    lookupRoom (addPresence au room u) room =
      some (setAdd ((lookupRoom au room).getD []) u) := by
  unfold addPresence
  cases h : lookupRoom au room with
  | none =>
      rw [lookupRoom_append, h]
      simp [lookupRoom, setAdd, memStr]
  | some l =>
      rw [lookupRoom_replaceRoom_self, h]
      simp

theorem lookupRoom_addPresence_ne (au : List (String × List String))
    {room q : String} (u : String) (h : q ≠ room) :
    lookupRoom (addPresence au room u) q = lookupRoom au q := by
  unfold addPresence
  cases hl : lookupRoom au room with
  | none =>
      rw [lookupRoom_append]
      cases hq : lookupRoom au q with
      | none => simp [lookupRoom, Ne.symm h]
      | some l => simp
  | some l => exact lookupRoom_replaceRoom_ne au _ h

theorem lookupRoom_eq_none_of_hasKey {au : List (String × List String)}
    {q : String} (h : hasKey au q = false) : lookupRoom au q = none := by
  induction au with
  | nil => rfl
  | cons p rest ih =>
      obtain ⟨r, l0⟩ := p
      simp only [hasKey] at h
      simp only [lookupRoom]
      by_cases hr : r = q
      · rw [if_pos hr] at h; exact absurd h (by simp)
      · rw [if_neg hr] at h
        rw [if_neg hr, ih h]

theorem hasKey_disconnectPresence {au : List (String × List String)}
    {q : String} (u : String) (h : hasKey au q = false) :
    hasKey (disconnectPresence au u) q = false := by
  induction au with
  | nil => rfl
  | cons p rest ih =>
      obtain ⟨r, l0⟩ := p
      simp only [hasKey] at h
      by_cases hr : r = q
      · rw [if_pos hr] at h; exact absurd h (by simp)
      · rw [if_neg hr] at h
        simp only [disconnectPresence]
        by_cases he : (setDelete l0 u).isEmpty
        · simp only [if_pos he]; exact ih h
        · simp only [if_neg he, hasKey, if_neg hr]; exact ih h

theorem lookupRoom_disconnectPresence (au : List (String × List String))
    (u room : String) (hnd : keysNodup au = true) :
    lookupRoom (disconnectPresence au u) room =
      match lookupRoom au room with
      | none => none
      | some l =>
          if (setDelete l u).isEmpty then none else some (setDelete l u) := by
  induction au with
  | nil => rfl
  | cons p rest ih =>
      obtain ⟨r, l0⟩ := p
      simp only [keysNodup, Bool.and_eq_true, Bool.not_eq_true'] at hnd
      obtain ⟨hfresh, hnd'⟩ := hnd
      simp only [disconnectPresence, lookupRoom]
      by_cases hr : r = room
      · subst hr
        by_cases he : (setDelete l0 u).isEmpty
        · simp only [if_pos he, if_pos rfl]
          have : hasKey (disconnectPresence rest u) r = false :=
            hasKey_disconnectPresence u hfresh
          rw [lookupRoom_eq_none_of_hasKey this]
          simp [he]
        · simp only [if_neg he, lookupRoom, if_pos rfl]
          simp [he]
      · by_cases he : (setDelete l0 u).isEmpty
        · simp only [if_pos he, if_neg hr]
          exact ih hnd'
        · simp only [if_neg he, lookupRoom, if_neg hr]
          exact ih hnd'

theorem hasKey_eq_isSome_lookupRoom (au : List (String × List String))
    (q : String) : hasKey au q = (lookupRoom au q).isSome := by
  induction au with
  | nil => rfl
  | cons p rest ih =>
      obtain ⟨r, l0⟩ := p
      simp only [hasKey, lookupRoom]
      by_cases hr : r = q
      · simp [hr]
      · simp [hr, ih]

theorem hasKey_replaceRoom (au : List (String × List String))
    (room q : String) (l : List String) :
    hasKey (replaceRoom au room l) q = hasKey au q := by
  induction au with
  | nil => rfl
  | cons p rest ih =>
      obtain ⟨r, l0⟩ := p
      simp only [replaceRoom, hasKey]
      by_cases hr : r = room
      · simp [hr, hasKey]
      · simp only [if_neg hr, hasKey, ih]

theorem hasKey_deleteRoom_le {au : List (String × List String)}
    {room q : String} (h : hasKey (deleteRoom au room) q = true) :
    hasKey au q = true := by
  induction au with
  | nil => exact h
  | cons p rest ih =>
      obtain ⟨r, l0⟩ := p
      simp only [deleteRoom] at h
      simp only [hasKey]
      by_cases hr : r = room
      · rw [if_pos hr] at h
        by_cases hq : r = q
        · simp [hq]
        · rw [if_neg hq]; exact ih h
      · rw [if_neg hr] at h
        simp only [hasKey] at h
        by_cases hq : r = q
        · simp [hq]
        · rw [if_neg hq] at h ⊢; exact ih h

theorem hasKey_disconnectPresence_le {au : List (String × List String)}
    {u q : String} (h : hasKey (disconnectPresence au u) q = true) :
    hasKey au q = true := by
  induction au with
  | nil => exact h
  | cons p rest ih =>
      obtain ⟨r, l0⟩ := p
      simp only [disconnectPresence] at h
      simp only [hasKey]
      by_cases hq : r = q
      · simp [hq]
      · rw [if_neg hq]
        by_cases he : (setDelete l0 u).isEmpty
        · rw [if_pos he] at h; exact ih h
        · rw [if_neg he] at h
          simp only [hasKey, if_neg hq] at h
          exact ih h

theorem keysNodup_replaceRoom (au : List (String × List String))
    (room : String) (l : List String) (h : keysNodup au = true) :
    keysNodup (replaceRoom au room l) = true := by
  induction au with
  | nil => rfl
  | cons p rest ih =>
      obtain ⟨r, l0⟩ := p
      simp only [keysNodup, Bool.and_eq_true, Bool.not_eq_true'] at h
      obtain ⟨hfresh, hnd⟩ := h
      simp only [replaceRoom]
      by_cases hr : r = room
      · simp only [if_pos hr, keysNodup, Bool.and_eq_true, Bool.not_eq_true']
        exact ⟨hfresh, hnd⟩
      · simp only [if_neg hr, keysNodup, Bool.and_eq_true, Bool.not_eq_true']
        refine ⟨?_, ih hnd⟩
        rw [hasKey_replaceRoom]
        exact hfresh

theorem keysNodup_deleteRoom (au : List (String × List String))
    (room : String) (h : keysNodup au = true) :
    keysNodup (deleteRoom au room) = true := by
  induction au with
  | nil => rfl
  | cons p rest ih =>
      obtain ⟨r, l0⟩ := p
      simp only [keysNodup, Bool.and_eq_true, Bool.not_eq_true'] at h
      obtain ⟨hfresh, hnd⟩ := h
      simp only [deleteRoom]
      by_cases hr : r = room
      · simp only [if_pos hr]; exact ih hnd
      · simp only [if_neg hr, keysNodup, Bool.and_eq_true, Bool.not_eq_true']
        refine ⟨?_, ih hnd⟩
        cases hk : hasKey (deleteRoom rest room) r with
        | false => rfl
        | true => rw [hasKey_deleteRoom_le hk] at hfresh; exact hfresh

theorem hasKey_append (a b : List (String × List String)) (q : String) :
    hasKey (a ++ b) q = (hasKey a q || hasKey b q) := by
  induction a with
  | nil => rfl
  | cons p rest ih =>
      obtain ⟨r, l0⟩ := p
      simp only [List.cons_append, hasKey]
      by_cases hr : r = q
      · simp [hr]
      · simp [hr, ih]

theorem keysNodup_append_singleton {au : List (String × List String)}
    {room : String} (l : List String)
    (h : keysNodup au = true) (hk : hasKey au room = false) :
    keysNodup (au ++ [(room, l)]) = true := by
  induction au with
  | nil => rfl
  | cons p rest ih =>
      obtain ⟨r, l0⟩ := p
      simp only [keysNodup, Bool.and_eq_true, Bool.not_eq_true'] at h
      obtain ⟨hfresh, hnd⟩ := h
      simp only [hasKey] at hk
      by_cases hr : r = room
      · rw [if_pos hr] at hk; exact absurd hk (by simp)
      · rw [if_neg hr] at hk
        simp only [List.cons_append, keysNodup, Bool.and_eq_true,
          Bool.not_eq_true']
        refine ⟨?_, ih hnd hk⟩
        have hall : hasKey (rest ++ [(room, l)]) r = false := by
          rw [hasKey_append, hfresh]
          simp only [hasKey, Bool.or_false]
          rw [if_neg (fun h0 : room = r => hr h0.symm)]
          rfl
        exact hall

theorem keysNodup_addPresence (au : List (String × List String))
    (room u : String) (h : keysNodup au = true) :
    keysNodup (addPresence au room u) = true := by
  unfold addPresence
  cases hl : lookupRoom au room with
  | none =>
      have hk : hasKey au room = false := by
        rw [hasKey_eq_isSome_lookupRoom, hl]; rfl
      exact keysNodup_append_singleton _ h hk
  | some l => exact keysNodup_replaceRoom au room _ h

/-- Claim C8: sanitization is idempotent (already-sanitized content, such
as `&lt;`, is not double-escaped) and performs exactly the replacement of
`<` by `&lt;` and `>` by `&gt;`, no other transformation. -/
theorem sanitize_idempotent_and_exact :
    (∀ s : String, sanitizedContent (sanitizedContent s) = sanitizedContent s)
    ∧ (∀ s : String, sanitizedContent s = sanitizeSpec s) := by
  constructor
  · intro s
    cases s with
    | mk l =>
        show String.mk (replaceAllChar '>' "&gt;".data (replaceAllChar '<' "&lt;".data
          (replaceAllChar '>' "&gt;".data (replaceAllChar '<' "&lt;".data l)))) = _
        rw [replaceAllChar_noop (c := '<')
          (fun x hx => (sanitized_no_markup hx).1)]
        rw [replaceAllChar_noop (c := '>')
          (fun x hx => (sanitized_no_markup hx).2)]
        rfl
  · intro s
    cases s with
    | mk l =>
        show String.mk (replaceAllChar '>' "&gt;".data (replaceAllChar '<' "&lt;".data l)) = _
        rw [sanitizedContent_list_eq_spec]
        rfl


/-! ### Socket-list lemmas -/

theorem findSock_append_of_some {ks : List Socket} {sid : String} {k : Socket}
    (h : findSock ks sid = some k) (k0 : Socket) :
    findSock (ks ++ [k0]) sid = some k := by
  induction ks with
  | nil => simp [findSock] at h
  | cons x xs ih =>
      simp only [findSock] at h
      simp only [List.cons_append, findSock]
      by_cases hx : x.sid = sid
      · rw [if_pos hx] at h ⊢; exact h
      · rw [if_neg hx] at h ⊢; exact ih h

theorem findSock_updateSock (ks : List Socket) (sid0 q : String)
    (f : Socket → Socket) (hf : ∀ k, (f k).sid = k.sid) :
    findSock (updateSock ks sid0 f) q =
      (findSock ks q).map (fun k => if k.sid = sid0 then f k else k) := by
  induction ks with
  | nil => rfl
  | cons x xs ih =>
      simp only [updateSock, List.map_cons, findSock]
      by_cases hq : x.sid = q
      · by_cases hx : x.sid = sid0
        · have hq0 : q = sid0 := by rw [← hq]; exact hx
          simp [findSock, hf x, hq, hx, hq0]
        · have hq0 : ¬ q = sid0 := by rw [← hq]; exact hx
          simp [findSock, hq, hx, hq0]
      · by_cases hx : x.sid = sid0
        · rw [if_pos hx]
          simp only [findSock, hf x, if_neg hq]
          simpa [updateSock] using ih
        · rw [if_neg hx]
          simp only [findSock, if_neg hq]
          simpa [updateSock] using ih

theorem findSock_removeSock (ks : List Socket) (sid q : String) :
    findSock (removeSock ks sid) q =
      if sid = q then none else findSock ks q := by
  induction ks with
  | nil => simp [removeSock, findSock]
  | cons x xs ih =>
      simp only [removeSock, List.filter] at *
      by_cases hx : x.sid = sid
      · have : (decide (x.sid ≠ sid)) = false := by simp [hx]
        rw [this]
        rw [ih]
        by_cases hq : sid = q
        · simp [hq]
        · simp only [if_neg hq, findSock]
          rw [if_neg (by rw [hx]; exact fun h => hq h)]
      · have : (decide (x.sid ≠ sid)) = true := by simp [hx]
        rw [this]
        simp only [findSock]
        by_cases hq : x.sid = q
        · rw [if_pos hq]
          rw [if_neg (fun h => hx (by rw [hq, ← h]))]
          rw [if_pos hq]
        · rw [if_neg hq, ih, if_neg hq]

/-! ### Reduction lemmas for the message handler -/

theorem handleMessage_malformed {md : MessageData}
    (rl : List (String × RLState)) (sid : String) (persist : PersistOutcome)
    (now : Nat) (iso : String) (hm : malformedMsg md = true) :
    handleMessage rl sid md persist now iso = (rl, [], none) := by
  simp [handleMessage, hm]

theorem handleMessage_ratelimited {rl rl' : List (String × RLState)}
    {sid : String} {md : MessageData} {now : Nat}
    (persist : PersistOutcome) (iso : String)
    (hm : malformedMsg md = false)
    (hc : rlConsume rl sid now = (false, rl')) :
    handleMessage rl sid md persist now iso =
      (rl', [OutEvent.errorTo sid "Rate limit exceeded. Please slow down."], none) := by
  simp [handleMessage, hm, hc]

theorem handleMessage_persist_ok {rl rl' : List (String × RLState)}
    {sid : String} {md : MessageData} {now : Nat}
    (saved : Message) (iso : String)
    (hm : malformedMsg md = false)
    (hc : rlConsume rl sid now = (true, rl')) :
    handleMessage rl sid md (PersistOutcome.ok saved) now iso =
      (rl',
       [OutEvent.messageTo md.roomId saved md.user (md.messageType.getD "text") iso],
       some ⟨sanitizedContent md.content, md.roomId, userNameOf md⟩) := by
  simp [handleMessage, hm, hc]

theorem handleMessage_persist_fail {rl rl' : List (String × RLState)}
    {sid : String} {md : MessageData} {now : Nat} {persist : PersistOutcome}
    (iso : String)
    (hm : malformedMsg md = false)
    (hc : rlConsume rl sid now = (true, rl'))
    (hp : persist = PersistOutcome.httpError ∨ persist = PersistOutcome.thrown) :
    handleMessage rl sid md persist now iso =
      (rl', [], some ⟨sanitizedContent md.content, md.roomId, userNameOf md⟩) := by
  rcases hp with hp | hp <;> subst hp <;> simp [handleMessage, hm, hc]

theorem step_message_eq (s : SrvState) (iso sid : String) (k : Socket)
    (md : MessageData) (persist : PersistOutcome) (now : Nat)
    (hk : findSock s.sockets sid = some k) :
    step s iso (Event.message sid md persist now) =
      ({ s with rlMap := (handleMessage s.rlMap sid md persist now iso).1 },
       (handleMessage s.rlMap sid md persist now iso).2.1,
       (handleMessage s.rlMap sid md persist now iso).2.2) := by
  simp [step, hk]

/-- Claim C1: for every inbound message event, a `message` broadcast
occurs only if the persistence call for that message returned success;
when persistence fails (non-ok response or thrown error) the handler
aborts and no broadcast is emitted to any connection. -/
theorem broadcast_only_if_persistence_ok
    (rl : List (String × RLState)) (sid : String) (md : MessageData)
    (persist : PersistOutcome) (now : Nat) (iso : String) :
    ((persist = PersistOutcome.httpError ∨ persist = PersistOutcome.thrown) →
      ∀ room saved u mt ts,
        OutEvent.messageTo room saved u mt ts ∉
          (handleMessage rl sid md persist now iso).2.1)
    ∧ (∀ room saved u mt ts,
        OutEvent.messageTo room saved u mt ts ∈
          (handleMessage rl sid md persist now iso).2.1 →
        persist = PersistOutcome.ok saved) := by
  by_cases hm : malformedMsg md = true
  · rw [handleMessage_malformed rl sid persist now iso hm]
    constructor
    · intro _ room saved u mt ts h
      simp at h
    · intro room saved u mt ts h
      simp at h
  · simp only [Bool.not_eq_true] at hm
    rcases hc : rlConsume rl sid now with ⟨b, rl'⟩
    cases b
    · rw [handleMessage_ratelimited persist iso hm hc]
      constructor
      · intro _ room saved u mt ts h
        simp at h
      · intro room saved u mt ts h
        simp at h
    · cases persist with
      | ok saved0 =>
          rw [handleMessage_persist_ok saved0 iso hm hc]
          constructor
          · intro hfail
            rcases hfail with h | h <;> exact absurd h (by simp)
          · intro room saved u mt ts h
            simp only [List.mem_singleton, OutEvent.messageTo.injEq] at h
            rw [h.2.1]
      | httpError =>
          rw [handleMessage_persist_fail iso hm hc (Or.inl rfl)]
          constructor
          · intro _ room saved u mt ts h
            simp at h
          · intro room saved u mt ts h
            simp at h
      | thrown =>
          rw [handleMessage_persist_fail iso hm hc (Or.inr rfl)]
          constructor
          · intro _ room saved u mt ts h
            simp at h
          · intro room saved u mt ts h
            simp at h

/-- Witness for C1 at a concrete failing persistence call. -/
theorem broadcast_only_if_persistence_ok_witness :
    OutEvent.messageTo "lobby" ⟨1, "hi", 2, 3, "d", "text"⟩ (some ⟨"a"⟩) "text" "t" ∉
      (handleMessage [] "s1" ⟨"lobby", "hi", some ⟨"a"⟩, none⟩
        PersistOutcome.httpError 5 "t").2.1 :=
  (broadcast_only_if_persistence_ok [] "s1" ⟨"lobby", "hi", some ⟨"a"⟩, none⟩
    PersistOutcome.httpError 5 "t").1 (Or.inl rfl) "lobby" _ _ _ _

/-- Claim C9 counterexample: the persistence request carries the
client-asserted payload username (`"mallory"`), not the username bound to
the connection at handshake (`"alice"`). -/
theorem persist_identity_counterexample :
    (step ⟨[⟨"s1", "alice", ["lobby"]⟩], [("lobby", ["alice"])], []⟩ "t"
        (Event.message "s1" ⟨"lobby", "hi", some ⟨"mallory"⟩, none⟩
          (PersistOutcome.ok ⟨1, "hi", 7, 9, "d", "text"⟩) 0)).2.2 =
      some ⟨"hi", "lobby", "mallory"⟩
    ∧ (findSock [⟨"s1", "alice", ["lobby"]⟩] "s1").map Socket.username = some "alice"
    ∧ ("mallory" : String) ≠ "alice" := by
  refine ⟨?_, by decide, by decide⟩
  decide

/-- Claim C9 as amended: for every admitted message, the persistence call
is made with the sanitized content, the room id, and the username taken
from the client-supplied message payload (not the handshake-bound
identity). -/
theorem persist_request_fields
    (rl : List (String × RLState)) (sid : String) (md : MessageData)
    (persist : PersistOutcome) (now : Nat) (iso : String)
    (hm : malformedMsg md = false)
    (hc : (rlConsume rl sid now).1 = true) :
    (handleMessage rl sid md persist now iso).2.2 =
      some ⟨sanitizedContent md.content, md.roomId, userNameOf md⟩ := by
  rcases hrc : rlConsume rl sid now with ⟨b, rl'⟩
  rw [hrc] at hc
  cases b
  · simp at hc
  · cases persist with
    | ok saved => rw [handleMessage_persist_ok saved iso hm hrc]
    | httpError => rw [handleMessage_persist_fail iso hm hrc (Or.inl rfl)]
    | thrown => rw [handleMessage_persist_fail iso hm hrc (Or.inr rfl)]

/-- Witness for the amended C9 at a concrete admitted message. -/
theorem persist_request_fields_witness :
    (handleMessage [] "s1" ⟨"lobby", "a<b", some ⟨"mallory"⟩, none⟩
        (PersistOutcome.ok ⟨1, "a&lt;b", 7, 9, "d", "text"⟩) 0 "t").2.2 =
      some ⟨sanitizedContent "a<b", "lobby", userNameOf ⟨"lobby", "a<b", some ⟨"mallory"⟩, none⟩⟩ :=
  persist_request_fields [] "s1" ⟨"lobby", "a<b", some ⟨"mallory"⟩, none⟩
    (PersistOutcome.ok ⟨1, "a&lt;b", 7, 9, "d", "text"⟩) 0 "t"
    (by decide) (by decide)

/-- Claim C10: a well-formed message whose payload omits `messageType` is
broadcast with messageType `"text"`; a supplied `messageType` is echoed
unchanged. -/
theorem messageType_default_and_echo
    (rl : List (String × RLState)) (sid : String) (md : MessageData)
    (saved : Message) (now : Nat) (iso : String)
    (hm : malformedMsg md = false)
    (hc : (rlConsume rl sid now).1 = true) :
    (handleMessage rl sid md (PersistOutcome.ok saved) now iso).2.1 =
      [OutEvent.messageTo md.roomId saved md.user (md.messageType.getD "text") iso]
    ∧ (md.messageType = none → md.messageType.getD "text" = "text")
    ∧ (∀ v, md.messageType = some v → md.messageType.getD "text" = v) := by
  rcases hrc : rlConsume rl sid now with ⟨b, rl'⟩
  rw [hrc] at hc
  cases b
  · simp at hc
  · refine ⟨?_, ?_, ?_⟩
    · rw [handleMessage_persist_ok saved iso hm hrc]
    · intro h; rw [h]; rfl
    · intro v h; rw [h]; rfl

/-- Witness for C10 at a concrete message with the field omitted. -/
theorem messageType_default_and_echo_witness :
    (handleMessage [] "s1" ⟨"lobby", "hi", some ⟨"a"⟩, none⟩
        (PersistOutcome.ok ⟨1, "hi", 7, 9, "d", "text"⟩) 0 "t").2.1 =
      [OutEvent.messageTo "lobby" ⟨1, "hi", 7, 9, "d", "text"⟩ (some ⟨"a"⟩) "text" "t"] :=
  (messageType_default_and_echo [] "s1" ⟨"lobby", "hi", some ⟨"a"⟩, none⟩
    ⟨1, "hi", 7, 9, "d", "text"⟩ 0 "t" (by decide) (by decide)).1

/-! ### Claims C5, C6, C7, C4: connection lifecycle -/

/-- Claim C5: a connection attempt with a missing or invalid credential is
refused at handshake with an authentication error and no session is
created; no joinRoom, message, leaveRoom or disconnect event is processed
for a transport with no live session; for an accepted connection the
identity extracted from the verified credential is bound to the
connection, and no later event ever changes a live socket's bound
username. -/
theorem handshake_auth_gate (s : SrvState) (iso sid : String)
    (token : Option String) (vr : VerifyResult) :
    ((∃ e, authMiddleware token vr = Except.error e) →
        step s iso (Event.connect sid token vr) = (s, [], none))
    ∧ ((token = none ∨ token = some "") →
        authMiddleware token vr = Except.error "Authentication error: Missing token")
    ∧ (vr = VerifyResult.invalid → ∃ e, authMiddleware token vr = Except.error e)
    ∧ (∀ u, authMiddleware token vr = Except.ok u →
        (step s iso (Event.connect sid token vr)).1.sockets
          = s.sockets ++ [⟨sid, u, []⟩])
    ∧ (findSock s.sockets sid = none →
        (∀ room m, step s iso (Event.joinRoom sid room m) = (s, [], none))
        ∧ (∀ md persist now, step s iso (Event.message sid md persist now) = (s, [], none))
        ∧ (∀ room, step s iso (Event.leaveRoom sid room) = (s, [], none))
        ∧ step s iso (Event.disconnect sid) = (s, [], none))
    ∧ (∀ e k, findSock s.sockets sid = some k →
        ∀ k', findSock (step s iso e).1.sockets sid = some k' →
          k'.username = k.username) := by
  refine ⟨?_, ?_, ?_, ?_, ?_, ?_⟩
  · rintro ⟨e, he⟩
    simp [step, he]
  · rintro (h | h) <;> subst h <;> rfl
  · intro h
    subst h
    unfold authMiddleware
    by_cases ht : token.getD "" = ""
    · exact ⟨_, by rw [if_pos ht]⟩
    · exact ⟨_, by rw [if_neg ht]⟩
  · intro u hu
    simp [step, hu]
  · intro hnone
    refine ⟨?_, ?_, ?_, ?_⟩
    · intro room m; simp [step, hnone]
    · intro md persist now; simp [step, hnone]
    · intro room; simp [step, hnone]
    · simp [step, hnone]
  · intro e k hk k' hk'
    cases e with
    | connect sid2 token2 vr2 =>
        cases hauth : authMiddleware token2 vr2 with
        | error e0 =>
            simp only [step, hauth] at hk'
            rw [hk] at hk'
            cases hk'; rfl
        | ok u =>
            simp only [step, hauth] at hk'
            rw [findSock_append_of_some hk] at hk'
            cases hk'; rfl
    | joinRoom sid2 room m =>
        cases hk2 : findSock s.sockets sid2 with
        | none =>
            simp only [step, hk2] at hk'
            rw [hk] at hk'; cases hk'; rfl
        | some k2 =>
            cases m with
            | queryError =>
                simp only [step, hk2] at hk'
                rw [hk] at hk'; cases hk'; rfl
            | notFound =>
                simp only [step, hk2] at hk'
                rw [hk] at hk'; cases hk'; rfl
            | found =>
                simp only [step, hk2] at hk'
                rw [findSock_updateSock s.sockets sid2 sid
                  (fun k0 => { k0 with rooms := joinRooms k0.rooms room })
                  (fun _ => rfl), hk] at hk'
                simp only [Option.map] at hk'
                cases hk'
                by_cases hks : k.sid = sid2
                · rw [if_pos hks]
                · rw [if_neg hks]
    | message sid2 md persist now =>
        cases hk2 : findSock s.sockets sid2 with
        | none =>
            simp only [step, hk2] at hk'
            rw [hk] at hk'; cases hk'; rfl
        | some k2 =>
            simp only [step, hk2] at hk'
            rw [hk] at hk'; cases hk'; rfl
    | leaveRoom sid2 room =>
        cases hk2 : findSock s.sockets sid2 with
        | none =>
            simp only [step, hk2] at hk'
            rw [hk] at hk'; cases hk'; rfl
        | some k2 =>
            cases hl : lookupRoom s.activeUsers room with
            | none =>
                simp only [step, hk2, hl] at hk'
                rw [findSock_updateSock s.sockets sid2 sid
                  (fun k0 => { k0 with rooms := setDelete k0.rooms room })
                  (fun _ => rfl), hk] at hk'
                simp only [Option.map] at hk'
                cases hk'
                by_cases hks : k.sid = sid2
                · rw [if_pos hks]
                · rw [if_neg hks]
            | some l =>
                simp only [step, hk2, hl] at hk'
                rw [findSock_updateSock s.sockets sid2 sid
                  (fun k0 => { k0 with rooms := setDelete k0.rooms room })
                  (fun _ => rfl), hk] at hk'
                simp only [Option.map] at hk'
                cases hk'
                by_cases hks : k.sid = sid2
                · rw [if_pos hks]
                · rw [if_neg hks]
    | disconnect sid2 =>
        cases hk2 : findSock s.sockets sid2 with
        | none =>
            simp only [step, hk2] at hk'
            rw [hk] at hk'; cases hk'; rfl
        | some k2 =>
            simp only [step, hk2] at hk'
            rw [findSock_removeSock] at hk'
            by_cases hs : sid2 = sid
            · rw [if_pos hs] at hk'; cases hk'
            · rw [if_neg hs, hk] at hk'; cases hk'; rfl

/-- Witness for C5: a concrete refused handshake. -/
theorem handshake_auth_gate_witness :
    step ⟨[], [], []⟩ "t" (Event.connect "s1" none VerifyResult.invalid)
      = (⟨[], [], []⟩, [], none) :=
  (handshake_auth_gate ⟨[], [], []⟩ "t" "s1" none VerifyResult.invalid).1
    ⟨"Authentication error: Missing token", rfl⟩

theorem findSock_some_sid {ks : List Socket} {sid : String} {k : Socket}
    (h : findSock ks sid = some k) : k.sid = sid := by
  induction ks with
  | nil => cases h
  | cons x xs ih =>
      simp only [findSock] at h
      by_cases hx : x.sid = sid
      · rw [if_pos hx] at h; cases h; exact hx
      · rw [if_neg hx] at h; exact ih h

theorem findSock_some_mem {ks : List Socket} {sid : String} {k : Socket}
    (h : findSock ks sid = some k) : k ∈ ks := by
  induction ks with
  | nil => cases h
  | cons x xs ih =>
      simp only [findSock] at h
      by_cases hx : x.sid = sid
      · rw [if_pos hx] at h; cases h; exact List.mem_cons_self _ _
      · rw [if_neg hx] at h; exact List.mem_cons_of_mem _ (ih h)

/-- Claim C6: for a joinRoom request of a live connection, membership
denial notifies only the requester with the access-denied notice and
changes no state; a membership-query failure refuses the join with a
distinct server-error notice and changes no state; on success the room is
registered in the connection's record, the identity enters the room's
presence set, and a join notice is broadcast to the room. -/
theorem joinRoom_outcomes (s : SrvState) (iso sid room : String) (k : Socket)
    (hk : findSock s.sockets sid = some k) :
    (step s iso (Event.joinRoom sid room MembershipResult.notFound) =
       (s, [OutEvent.errorTo sid "Access Denied: You are not a member of this room."], none))
    ∧ (step s iso (Event.joinRoom sid room MembershipResult.queryError) =
       (s, [OutEvent.errorTo sid "Failed to join room due to a server error."], none))
    ∧ ("Access Denied: You are not a member of this room." ≠
        "Failed to join room due to a server error.")
    ∧ (∃ k', findSock (step s iso (Event.joinRoom sid room MembershipResult.found)).1.sockets sid
          = some k' ∧ memStr k'.rooms room = true ∧ k'.username = k.username)
    ∧ presenceOf (step s iso (Event.joinRoom sid room MembershipResult.found)).1
        room k.username = true
    ∧ (step s iso (Event.joinRoom sid room MembershipResult.found)).2.1 =
        [OutEvent.userJoined room k.username (k.username ++ " has joined the room.") iso] := by
  refine ⟨by simp [step, hk], by simp [step, hk], by decide, ?_, ?_, by simp [step, hk]⟩
  · simp only [step, hk]
    rw [findSock_updateSock s.sockets sid sid
      (fun k0 => { k0 with rooms := joinRooms k0.rooms room }) (fun _ => rfl), hk]
    refine ⟨_, rfl, ?_, ?_⟩
    · have hs := findSock_some_sid hk
      simp [hs, memStr_joinRooms_self]
    · have hs := findSock_some_sid hk
      simp [hs]
  · simp only [step, hk, presenceOf]
    rw [lookupRoom_addPresence_self]
    exact memStr_setAdd_self _ _

/-- Witness for C6 at a concrete live connection. -/
theorem joinRoom_outcomes_witness :
    step ⟨[⟨"s1", "alice", []⟩], [], []⟩ "t"
        (Event.joinRoom "s1" "lobby" MembershipResult.notFound)
      = (⟨[⟨"s1", "alice", []⟩], [], []⟩,
         [OutEvent.errorTo "s1" "Access Denied: You are not a member of this room."],
         none) :=
  (joinRoom_outcomes ⟨[⟨"s1", "alice", []⟩], [], []⟩ "t" "s1" "lobby"
    ⟨"s1", "alice", []⟩ (by decide)).1

/-- Claim C7 counterexample: a leaveRoom for a room with no presence
entry is a no-op removal, yet no userLeft notice is broadcast, refuting
the unconditional-notice part of the claim. -/
theorem leaveRoom_no_notice_counterexample :
    step ⟨[⟨"s1", "bob", []⟩], [], []⟩ "t" (Event.leaveRoom "s1" "ghost")
      = (⟨[⟨"s1", "bob", []⟩], [], []⟩, [], none) := by decide

/-- Claim C7 as amended: when the room has a presence entry, the identity
is removed from it unconditionally (a no-op removal of an absent identity
included), the entry is deleted when the set becomes empty, and the leave
notice is broadcast even for a no-op removal; when the room has no
presence entry, presence is untouched and no notice is emitted; in every
case the room is removed from the connection's own joined-room record. -/
theorem leaveRoom_behavior (s : SrvState) (iso sid room : String) (k : Socket)
    (hk : findSock s.sockets sid = some k) :
    (lookupRoom s.activeUsers room = none →
        step s iso (Event.leaveRoom sid room) =
          ({ s with
              sockets := updateSock s.sockets sid
                (fun k0 => { k0 with rooms := setDelete k0.rooms room }) },
           [], none))
    ∧ (∀ l, lookupRoom s.activeUsers room = some l →
        step s iso (Event.leaveRoom sid room) =
          ({ s with
              sockets := updateSock s.sockets sid
                (fun k0 => { k0 with rooms := setDelete k0.rooms room }),
              activeUsers :=
                if (setDelete l k.username).isEmpty then deleteRoom s.activeUsers room
                else replaceRoom s.activeUsers room (setDelete l k.username) },
           [OutEvent.userLeft room k.username (k.username ++ " has left the room.") iso],
           none))
    ∧ (∀ k', findSock (step s iso (Event.leaveRoom sid room)).1.sockets sid = some k' →
        memStr k'.rooms room = false) := by
  refine ⟨?_, ?_, ?_⟩
  · intro hl
    simp [step, hk, hl]
  · intro l hl
    simp [step, hk, hl, removePresence]
  · intro k' hk'
    cases hl : lookupRoom s.activeUsers room with
    | none =>
        simp only [step, hk, hl] at hk'
        rw [findSock_updateSock s.sockets sid sid
          (fun k0 => { k0 with rooms := setDelete k0.rooms room })
          (fun _ => rfl), hk] at hk'
        simp only [Option.map] at hk'
        cases hk'
        rw [if_pos (findSock_some_sid hk)]
        exact memStr_setDelete_self _ _
    | some l =>
        simp only [step, hk, hl] at hk'
        rw [findSock_updateSock s.sockets sid sid
          (fun k0 => { k0 with rooms := setDelete k0.rooms room })
          (fun _ => rfl), hk] at hk'
        simp only [Option.map] at hk'
        cases hk'
        rw [if_pos (findSock_some_sid hk)]
        exact memStr_setDelete_self _ _

/-- Witness for the amended C7 at a concrete state whose room entry
exists. -/
theorem leaveRoom_behavior_witness :
    step ⟨[⟨"s1", "bob", ["lobby"]⟩], [("lobby", ["alice", "bob"])], []⟩ "t"
        (Event.leaveRoom "s1" "lobby")
      = (⟨[⟨"s1", "bob", []⟩], [("lobby", ["alice"])], []⟩,
         [OutEvent.userLeft "lobby" "bob" "bob has left the room." "t"], none) := by
  have h := (leaveRoom_behavior
    ⟨[⟨"s1", "bob", ["lobby"]⟩], [("lobby", ["alice", "bob"])], []⟩ "t" "s1" "lobby"
    ⟨"s1", "bob", ["lobby"]⟩ (by decide)).2.1 ["alice", "bob"] (by decide)
  rw [h]
  decide

/-- Claim C4 counterexample: on disconnect of `"s1"` (identity `"bob"`,
joined only to `"r1"`), the cleanup also strips `"bob"` from `"r2"` (a
room `"s1"` never joined, still joined by the live `"s3"`), and emits no
userLeft notice although `"alice"` remains in `"r1"`. -/
theorem disconnect_cleanup_counterexample :
    step ⟨[⟨"s1", "bob", ["r1"]⟩, ⟨"s2", "alice", ["r1"]⟩, ⟨"s3", "bob", ["r2"]⟩],
          [("r1", ["bob", "alice"]), ("r2", ["bob"])], []⟩ "t"
        (Event.disconnect "s1")
      = (⟨[⟨"s2", "alice", ["r1"]⟩, ⟨"s3", "bob", ["r2"]⟩],
          [("r1", ["alice"])], []⟩, [], none) := by decide

/-- Claim C4 as amended: disconnect cleanup scans every room entry of the
presence map (not the connection's own joined-room record), removes the
bound identity from each set, deletes entries that become empty, and
emits no events at all, so remaining members receive no userLeft
notice. -/
theorem disconnect_cleanup_behavior (s : SrvState) (iso sid : String) (k : Socket)
    (hk : findSock s.sockets sid = some k) :
    step s iso (Event.disconnect sid) =
      ({ s with
          sockets := removeSock s.sockets sid,
          activeUsers := disconnectPresence s.activeUsers k.username },
       [], none)
    ∧ (keysNodup s.activeUsers = true →
        ∀ room i, presenceOf (step s iso (Event.disconnect sid)).1 room i =
          (presenceOf s room i && !(decide (i = k.username)))) := by
  refine ⟨by simp [step, hk], ?_⟩
  intro hnd room i
  simp only [step, hk, presenceOf]
  rw [lookupRoom_disconnectPresence _ _ _ hnd]
  cases hl : lookupRoom s.activeUsers room with
  | none => simp [memStr]
  | some l =>
      show memStr ((if (setDelete l k.username).isEmpty = true then none
          else some (setDelete l k.username)).getD []) i
        = (memStr l i && !decide (i = k.username))
      by_cases he : (setDelete l k.username).isEmpty = true
      · rw [if_pos he]
        by_cases hi : i = k.username
        · subst hi
          simp [memStr]
        · rw [memStr_false_of_setDelete_isEmpty he hi]
          simp [memStr, hi]
      · rw [if_neg he]
        simp only [Option.getD_some]
        by_cases hi : i = k.username
        · subst hi
          simp [memStr_setDelete_self]
        · rw [memStr_setDelete_ne l hi]
          simp [hi]

/-- Witness for the amended C4 at a concrete disconnect. -/
theorem disconnect_cleanup_behavior_witness :
    step ⟨[⟨"s1", "bob", ["r1"]⟩], [("r1", ["bob"])], []⟩ "t"
        (Event.disconnect "s1")
      = (⟨[], [], []⟩, [], none) := by
  have h := (disconnect_cleanup_behavior
    ⟨[⟨"s1", "bob", ["r1"]⟩], [("r1", ["bob"])], []⟩ "t" "s1"
    ⟨"s1", "bob", ["r1"]⟩ (by decide)).1
  rw [h]
  decide

/-! ### Claim C3: rate limiting -/

theorem rlLookup_rlSet_self (m : List (String × RLState)) (k : String)
    (v : RLState) : rlLookup (rlSet m k v) k = some v := by
  induction m with
  | nil => simp [rlSet, rlLookup]
  | cons p rest ih =>
      obtain ⟨k0, v0⟩ := p
      simp only [rlSet]
      by_cases hk : k0 = k
      · simp [rlLookup, hk]
      · simp [rlLookup, hk, ih]

theorem step_message_first (s : SrvState) (iso sid : String) (k : Socket)
    (md : MessageData) (saved : Message) (now : Nat)
    (hk : findSock s.sockets sid = some k)
    (hm : malformedMsg md = false)
    (hrl : rlLookup s.rlMap sid = none) :
    step s iso (Event.message sid md (PersistOutcome.ok saved) now) =
      ({ s with rlMap := rlSet s.rlMap sid ⟨1, now + 10⟩ },
       [OutEvent.messageTo md.roomId saved md.user (md.messageType.getD "text") iso],
       some ⟨sanitizedContent md.content, md.roomId, userNameOf md⟩) := by
  rw [step_message_eq s iso sid k md _ now hk]
  have hc : rlConsume s.rlMap sid now = (true, rlSet s.rlMap sid ⟨1, now + 10⟩) := by
    simp only [rlConsume, hrl]
  rw [handleMessage_persist_ok saved iso hm hc]

theorem step_message_nth (s : SrvState) (iso sid : String) (k : Socket)
    (md : MessageData) (saved : Message) (now n e : Nat)
    (hk : findSock s.sockets sid = some k)
    (hm : malformedMsg md = false)
    (hrl : rlLookup s.rlMap sid = some ⟨n, e⟩)
    (hwin : now < e) (hn : n < 5) :
    step s iso (Event.message sid md (PersistOutcome.ok saved) now) =
      ({ s with rlMap := rlSet s.rlMap sid ⟨n + 1, e⟩ },
       [OutEvent.messageTo md.roomId saved md.user (md.messageType.getD "text") iso],
       some ⟨sanitizedContent md.content, md.roomId, userNameOf md⟩) := by
  rw [step_message_eq s iso sid k md _ now hk]
  have hc : rlConsume s.rlMap sid now = (true, rlSet s.rlMap sid ⟨n + 1, e⟩) := by
    simp only [rlConsume, hrl]
    rw [if_neg (show ¬ e ≤ now by omega), if_pos (show n < 5 from hn)]
  rw [handleMessage_persist_ok saved iso hm hc]

theorem step_message_limited (s : SrvState) (iso sid : String) (k : Socket)
    (md : MessageData) (persist : PersistOutcome) (now e : Nat)
    (hk : findSock s.sockets sid = some k)
    (hm : malformedMsg md = false)
    (hrl : rlLookup s.rlMap sid = some ⟨5, e⟩)
    (hwin : now < e) :
    step s iso (Event.message sid md persist now) =
      (s, [OutEvent.errorTo sid "Rate limit exceeded. Please slow down."], none) := by
  rw [step_message_eq s iso sid k md persist now hk]
  have hc : rlConsume s.rlMap sid now = (false, s.rlMap) := by
    simp only [rlConsume, hrl]
    rw [if_neg (show ¬ e ≤ now by omega), if_neg (show ¬ (5 : Nat) < 5 by omega)]
  rw [handleMessage_ratelimited persist iso hm hc]

/-- Claim C3: a connection with a fresh rate-limiter key that sends six
well-formed messages inside one 10-second window has the first five
admitted (and, persistence succeeding, broadcast with their persistence
requests issued) while the sixth is rejected: the sender alone receives
the rate-limit notice, the sixth message reaches no persistence call, the
server state is left untouched by the rejection (nothing queued, delayed
or retried), and the socket list — hence every connection — survives. -/
theorem rate_limit_sixth_rejected
    (s0 : SrvState) (iso sid : String) (k : Socket)
    (md1 md2 md3 md4 md5 md6 : MessageData)
    (sv1 sv2 sv3 sv4 sv5 : Message) (persist6 : PersistOutcome)
    (t1 t2 t3 t4 t5 t6 : Nat)
    (hk : findSock s0.sockets sid = some k)
    (hm1 : malformedMsg md1 = false) (hm2 : malformedMsg md2 = false)
    (hm3 : malformedMsg md3 = false) (hm4 : malformedMsg md4 = false)
    (hm5 : malformedMsg md5 = false) (hm6 : malformedMsg md6 = false)
    (hrl : rlLookup s0.rlMap sid = none)
    (hw2 : t2 < t1 + 10) (hw3 : t3 < t1 + 10) (hw4 : t4 < t1 + 10)
    (hw5 : t5 < t1 + 10) (hw6 : t6 < t1 + 10) :
    ∃ s1 s2 s3 s4 s5 : SrvState,
      step s0 iso (Event.message sid md1 (PersistOutcome.ok sv1) t1) =
        (s1, [OutEvent.messageTo md1.roomId sv1 md1.user (md1.messageType.getD "text") iso],
         some ⟨sanitizedContent md1.content, md1.roomId, userNameOf md1⟩)
      ∧ step s1 iso (Event.message sid md2 (PersistOutcome.ok sv2) t2) =
        (s2, [OutEvent.messageTo md2.roomId sv2 md2.user (md2.messageType.getD "text") iso],
         some ⟨sanitizedContent md2.content, md2.roomId, userNameOf md2⟩)
      ∧ step s2 iso (Event.message sid md3 (PersistOutcome.ok sv3) t3) =
        (s3, [OutEvent.messageTo md3.roomId sv3 md3.user (md3.messageType.getD "text") iso],
         some ⟨sanitizedContent md3.content, md3.roomId, userNameOf md3⟩)
      ∧ step s3 iso (Event.message sid md4 (PersistOutcome.ok sv4) t4) =
        (s4, [OutEvent.messageTo md4.roomId sv4 md4.user (md4.messageType.getD "text") iso],
         some ⟨sanitizedContent md4.content, md4.roomId, userNameOf md4⟩)
      ∧ step s4 iso (Event.message sid md5 (PersistOutcome.ok sv5) t5) =
        (s5, [OutEvent.messageTo md5.roomId sv5 md5.user (md5.messageType.getD "text") iso],
         some ⟨sanitizedContent md5.content, md5.roomId, userNameOf md5⟩)
      ∧ step s5 iso (Event.message sid md6 persist6 t6) =
        (s5, [OutEvent.errorTo sid "Rate limit exceeded. Please slow down."], none)
      ∧ s5.sockets = s0.sockets := by
  have h1 := step_message_first s0 iso sid k md1 sv1 t1 hk hm1 hrl
  have h2 := step_message_nth
    { s0 with rlMap := rlSet s0.rlMap sid ⟨1, t1 + 10⟩ }
    iso sid k md2 sv2 t2 1 (t1 + 10) hk hm2 (rlLookup_rlSet_self _ _ _)
    hw2 (by omega)
  have h3 := step_message_nth
    { s0 with rlMap := rlSet (rlSet s0.rlMap sid ⟨1, t1 + 10⟩) sid ⟨2, t1 + 10⟩ }
    iso sid k md3 sv3 t3 2 (t1 + 10) hk hm3 (rlLookup_rlSet_self _ _ _)
    hw3 (by omega)
  have h4 := step_message_nth
    { s0 with rlMap := rlSet (rlSet (rlSet s0.rlMap sid ⟨1, t1 + 10⟩) sid
        ⟨2, t1 + 10⟩) sid ⟨3, t1 + 10⟩ }
    iso sid k md4 sv4 t4 3 (t1 + 10) hk hm4 (rlLookup_rlSet_self _ _ _)
    hw4 (by omega)
  have h5 := step_message_nth
    { s0 with rlMap := rlSet (rlSet (rlSet (rlSet s0.rlMap sid ⟨1, t1 + 10⟩) sid
        ⟨2, t1 + 10⟩) sid ⟨3, t1 + 10⟩) sid ⟨4, t1 + 10⟩ }
    iso sid k md5 sv5 t5 4 (t1 + 10) hk hm5 (rlLookup_rlSet_self _ _ _)
    hw5 (by omega)
  have h6 := step_message_limited
    { s0 with rlMap := (rlSet (rlSet (rlSet (rlSet (rlSet s0.rlMap sid
        ⟨1, t1 + 10⟩) sid ⟨2, t1 + 10⟩) sid ⟨3, t1 + 10⟩) sid ⟨4, t1 + 10⟩) sid
        ⟨5, t1 + 10⟩) }
    iso sid k md6 persist6 t6 (t1 + 10) hk hm6 (rlLookup_rlSet_self _ _ _) hw6
  exact ⟨_, _, _, _, _, h1, h2, h3, h4, h5, h6, rfl⟩

/-- Witness for C3: a concrete connection firing six messages at seconds
0 through 5. -/
theorem rate_limit_sixth_rejected_witness :
    ∃ s5 : SrvState,
      step s5 "t" (Event.message "s1" ⟨"lobby", "hi", some ⟨"a"⟩, none⟩
        PersistOutcome.thrown 5) =
      (s5, [OutEvent.errorTo "s1" "Rate limit exceeded. Please slow down."], none) := by
  obtain ⟨s1, s2, s3, s4, s5, h⟩ := rate_limit_sixth_rejected
    ⟨[⟨"s1", "a", ["lobby"]⟩], [("lobby", ["a"])], []⟩ "t" "s1" ⟨"s1", "a", ["lobby"]⟩
    ⟨"lobby", "hi", some ⟨"a"⟩, none⟩ ⟨"lobby", "hi", some ⟨"a"⟩, none⟩
    ⟨"lobby", "hi", some ⟨"a"⟩, none⟩ ⟨"lobby", "hi", some ⟨"a"⟩, none⟩
    ⟨"lobby", "hi", some ⟨"a"⟩, none⟩ ⟨"lobby", "hi", some ⟨"a"⟩, none⟩
    ⟨1, "hi", 1, 1, "d", "text"⟩ ⟨2, "hi", 1, 1, "d", "text"⟩
    ⟨3, "hi", 1, 1, "d", "text"⟩ ⟨4, "hi", 1, 1, "d", "text"⟩
    ⟨5, "hi", 1, 1, "d", "text"⟩ PersistOutcome.thrown
    0 1 2 3 4 5 (by decide) (by decide) (by decide) (by decide) (by decide)
    (by decide) (by decide) rfl (by omega) (by omega) (by omega) (by omega)
    (by omega)
  exact ⟨s5, h.2.2.2.2.2.1⟩

/-! ### Claim C2: the presence invariant -/

theorem hasLiveConn_true_iff (ks : List Socket) (room ident : String) :
    hasLiveConn ks room ident = true ↔
      ∃ k ∈ ks, k.username = ident ∧ memStr k.rooms room = true := by
  induction ks with
  | nil => simp [hasLiveConn]
  | cons x xs ih =>
      simp only [hasLiveConn, Bool.or_eq_true, Bool.and_eq_true,
        decide_eq_true_eq, ih]
      constructor
      · rintro (⟨h1, h2⟩ | ⟨k, hk, h1, h2⟩)
        · exact ⟨x, List.mem_cons_self _ _, h1, h2⟩
        · exact ⟨k, List.mem_cons_of_mem _ hk, h1, h2⟩
      · rintro ⟨k, hk, h1, h2⟩
        rcases List.mem_cons.mp hk with h | h
        · subst h; exact Or.inl ⟨h1, h2⟩
        · exact Or.inr ⟨k, h, h1, h2⟩

theorem hasLiveConn_false_iff (ks : List Socket) (room ident : String) :
    hasLiveConn ks room ident = false ↔
      ∀ k ∈ ks, k.username = ident → memStr k.rooms room = false := by
  rw [← Bool.not_eq_true, hasLiveConn_true_iff]
  constructor
  · intro h k hk hu
    cases hm : memStr k.rooms room
    · rfl
    · exact absurd ⟨k, hk, hu, hm⟩ h
  · rintro h ⟨k, hk, hu, hm⟩
    rw [h k hk hu] at hm
    cases hm

theorem hasLiveConn_append_nil_rooms (ks : List Socket)
    (sid u room ident : String) :
    hasLiveConn (ks ++ [⟨sid, u, []⟩]) room ident =
      hasLiveConn ks room ident := by
  induction ks with
  | nil => simp [hasLiveConn, memStr]
  | cons x xs ih => simp [hasLiveConn, ih]

theorem hasLiveConn_map_eq (ks : List Socket) (g : Socket → Socket)
    (room ident : String)
    (hg : ∀ a ∈ ks, (g a).username = a.username ∧
      memStr (g a).rooms room = memStr a.rooms room) :
    hasLiveConn (ks.map g) room ident = hasLiveConn ks room ident := by
  induction ks with
  | nil => rfl
  | cons x xs ih =>
      simp only [List.map_cons, hasLiveConn]
      rw [(hg x (List.mem_cons_self _ _)).1, (hg x (List.mem_cons_self _ _)).2,
        ih (fun a ha => hg a (List.mem_cons_of_mem _ ha))]

theorem hasLiveConn_map_eq_of_fixed (ks : List Socket) (g : Socket → Socket)
    (room ident : String)
    (hg1 : ∀ a ∈ ks, (g a).username = a.username)
    (hg2 : ∀ a ∈ ks, a.username = ident → g a = a) :
    hasLiveConn (ks.map g) room ident = hasLiveConn ks room ident := by
  induction ks with
  | nil => rfl
  | cons x xs ih =>
      simp only [List.map_cons, hasLiveConn]
      have hrec := ih (fun a ha => hg1 a (List.mem_cons_of_mem _ ha))
        (fun a ha h => hg2 a (List.mem_cons_of_mem _ ha) h)
      by_cases hx : x.username = ident
      · rw [hg2 x (List.mem_cons_self _ _) hx, hrec]
      · have : (g x).username ≠ ident := by
          rw [hg1 x (List.mem_cons_self _ _)]; exact hx
        simp only [decide_eq_false this, decide_eq_false hx, Bool.false_and,
          Bool.false_or, hrec]

theorem keysNodup_disconnectPresence (au : List (String × List String))
    (u : String) (h : keysNodup au = true) :
    keysNodup (disconnectPresence au u) = true := by
  induction au with
  | nil => rfl
  | cons p rest ih =>
      obtain ⟨r, l0⟩ := p
      simp only [keysNodup, Bool.and_eq_true, Bool.not_eq_true'] at h
      obtain ⟨hfresh, hnd⟩ := h
      simp only [disconnectPresence]
      by_cases he : (setDelete l0 u).isEmpty = true
      · rw [if_pos he]; exact ih hnd
      · rw [if_neg he]
        simp only [keysNodup, Bool.and_eq_true, Bool.not_eq_true']
        exact ⟨hasKey_disconnectPresence u hfresh, ih hnd⟩

theorem memStr_lookup_disconnectPresence (au : List (String × List String))
    (u room i : String) (hnd : keysNodup au = true) :
    memStr ((lookupRoom (disconnectPresence au u) room).getD []) i =
      (memStr ((lookupRoom au room).getD []) i && !(decide (i = u))) := by
  rw [lookupRoom_disconnectPresence au u room hnd]
  cases hl : lookupRoom au room with
  | none => simp [memStr]
  | some l =>
      show memStr ((if (setDelete l u).isEmpty = true then none
          else some (setDelete l u)).getD []) i
        = (memStr l i && !decide (i = u))
      by_cases he : (setDelete l u).isEmpty = true
      · rw [if_pos he]
        by_cases hi : i = u
        · subst hi; simp [memStr]
        · rw [memStr_false_of_setDelete_isEmpty he hi]
          simp [memStr, hi]
      · rw [if_neg he]
        simp only [Option.getD_some]
        by_cases hi : i = u
        · subst hi; simp [memStr_setDelete_self]
        · rw [memStr_setDelete_ne l hi]
          simp [hi]

theorem presence_step_connect (s : SrvState) (iso sid : String)
    (token : Option String) (vr : VerifyResult)
    (hwf : StateWf s) (hinv : PresenceInv s)
    (hsid : ∀ k ∈ s.sockets, k.sid ≠ sid)
    (hu : ∀ u, authMiddleware token vr = Except.ok u →
      ∀ k ∈ s.sockets, k.username ≠ u) :
    StateWf (step s iso (Event.connect sid token vr)).1 ∧
    PresenceInv (step s iso (Event.connect sid token vr)).1 := by
  obtain ⟨hnd, husid, huid⟩ := hwf
  cases hauth : authMiddleware token vr with
  | error e0 =>
      simp only [step, hauth]
      exact ⟨⟨hnd, husid, huid⟩, hinv⟩
  | ok u =>
      simp only [step, hauth]
      refine ⟨⟨hnd, ?_, ?_⟩, ?_⟩
      · intro k1 hk1 k2 hk2 hs
        rcases List.mem_append.mp hk1 with h1 | h1 <;>
          rcases List.mem_append.mp hk2 with h2 | h2
        · exact husid k1 h1 k2 h2 hs
        · exfalso
          rw [List.mem_singleton] at h2
          subst h2
          exact hsid k1 h1 hs
        · exfalso
          rw [List.mem_singleton] at h1
          subst h1
          exact hsid k2 h2 hs.symm
        · rw [List.mem_singleton] at h1 h2
          rw [h1, h2]
      · intro k1 hk1 k2 hk2 hs
        rcases List.mem_append.mp hk1 with h1 | h1 <;>
          rcases List.mem_append.mp hk2 with h2 | h2
        · exact huid k1 h1 k2 h2 hs
        · exfalso
          rw [List.mem_singleton] at h2
          subst h2
          exact hu u hauth k1 h1 hs
        · exfalso
          rw [List.mem_singleton] at h1
          subst h1
          exact hu u hauth k2 h2 hs.symm
        · rw [List.mem_singleton] at h1 h2
          rw [h1, h2]
      · intro room ident
        show memStr ((lookupRoom s.activeUsers room).getD []) ident =
          hasLiveConn (s.sockets ++ [⟨sid, u, []⟩]) room ident
        rw [hasLiveConn_append_nil_rooms]
        exact hinv room ident

theorem presence_step_message (s : SrvState) (iso sid : String)
    (md : MessageData) (persist : PersistOutcome) (now : Nat)
    (hwf : StateWf s) (hinv : PresenceInv s) :
    StateWf (step s iso (Event.message sid md persist now)).1 ∧
    PresenceInv (step s iso (Event.message sid md persist now)).1 := by
  cases hk : findSock s.sockets sid with
  | none =>
      simp only [step, hk]
      exact ⟨hwf, hinv⟩
  | some k =>
      simp only [step, hk]
      exact ⟨hwf, hinv⟩

theorem presence_step_join (s : SrvState) (iso sid room : String)
    (m : MembershipResult)
    (hwf : StateWf s) (hinv : PresenceInv s) :
    StateWf (step s iso (Event.joinRoom sid room m)).1 ∧
    PresenceInv (step s iso (Event.joinRoom sid room m)).1 := by
  obtain ⟨hnd, husid, huid⟩ := hwf
  cases hk : findSock s.sockets sid with
  | none =>
      simp only [step, hk]
      exact ⟨⟨hnd, husid, huid⟩, hinv⟩
  | some k =>
      cases m with
      | queryError =>
          simp only [step, hk]
          exact ⟨⟨hnd, husid, huid⟩, hinv⟩
      | notFound =>
          simp only [step, hk]
          exact ⟨⟨hnd, husid, huid⟩, hinv⟩
      | found =>
          simp only [step, hk]
          have hksid : k.sid = sid := findSock_some_sid hk
          have hkmem : k ∈ s.sockets := findSock_some_mem hk
          have hguser : ∀ a : Socket,
              ((if a.sid = sid then { a with rooms := joinRooms a.rooms room }
                else a) : Socket).username = a.username := by
            intro a
            by_cases h : a.sid = sid <;> simp [h]
          have hgsid : ∀ a : Socket,
              ((if a.sid = sid then { a with rooms := joinRooms a.rooms room }
                else a) : Socket).sid = a.sid := by
            intro a
            by_cases h : a.sid = sid <;> simp [h]
          refine ⟨⟨keysNodup_addPresence _ _ _ hnd, ?_, ?_⟩, ?_⟩
          · intro k1 hk1 k2 hk2 hs
            simp only [updateSock] at hk1 hk2
            obtain ⟨a, ha, rfl⟩ := List.mem_map.mp hk1
            obtain ⟨b, hb, rfl⟩ := List.mem_map.mp hk2
            rw [hgsid a, hgsid b] at hs
            rw [husid a ha b hb hs]
          · intro k1 hk1 k2 hk2 hs
            simp only [updateSock] at hk1 hk2
            obtain ⟨a, ha, rfl⟩ := List.mem_map.mp hk1
            obtain ⟨b, hb, rfl⟩ := List.mem_map.mp hk2
            rw [hguser a, hguser b] at hs
            rw [huid a ha b hb hs]
          · intro room2 i
            have hinv2 : memStr ((lookupRoom s.activeUsers room2).getD []) i =
                hasLiveConn s.sockets room2 i := hinv room2 i
            show memStr ((lookupRoom (addPresence s.activeUsers room k.username)
                room2).getD []) i
              = hasLiveConn (updateSock s.sockets sid
                  (fun k0 => { k0 with rooms := joinRooms k0.rooms room })) room2 i
            by_cases hr : room2 = room
            · rw [hr, lookupRoom_addPresence_self]
              simp only [Option.getD_some]
              by_cases hi : i = k.username
              · rw [hi, memStr_setAdd_self]
                refine ((hasLiveConn_true_iff _ _ _).mpr
                  ⟨_, List.mem_map_of_mem _ hkmem, ?_, ?_⟩).symm
                · exact hguser k
                · show memStr ((if k.sid = sid then
                      { k with rooms := joinRooms k.rooms room } else k) :
                      Socket).rooms room = true
                  rw [if_pos hksid]
                  exact memStr_joinRooms_self _ _
              · rw [memStr_setAdd_ne _ hi]
                have hinv3 : memStr ((lookupRoom s.activeUsers room).getD []) i =
                    hasLiveConn s.sockets room i := hinv room i
                rw [hinv3]
                refine (hasLiveConn_map_eq_of_fixed _ _ _ _ (fun a _ => hguser a)
                  ?_).symm
                intro a ha hai
                have hasid : ¬ a.sid = sid := by
                  intro h
                  have heq : a = k := husid a ha k hkmem (by rw [h, hksid])
                  rw [heq] at hai
                  exact hi hai.symm
                show (if a.sid = sid then
                    ({ a with rooms := joinRooms a.rooms room } : Socket) else a) = a
                rw [if_neg hasid]
            · rw [lookupRoom_addPresence_ne _ _ hr, hinv2]
              refine (hasLiveConn_map_eq _ _ _ _ ?_).symm
              intro a _
              refine ⟨hguser a, ?_⟩
              by_cases h : a.sid = sid
              · show memStr ((if a.sid = sid then
                    ({ a with rooms := joinRooms a.rooms room } : Socket)
                    else a)).rooms room2 = memStr a.rooms room2
                rw [if_pos h]
                exact memStr_joinRooms_ne _ hr
              · show memStr ((if a.sid = sid then
                    ({ a with rooms := joinRooms a.rooms room } : Socket)
                    else a)).rooms room2 = memStr a.rooms room2
                rw [if_neg h]

theorem presence_step_leave (s : SrvState) (iso sid room : String)
    (hwf : StateWf s) (hinv : PresenceInv s) :
    StateWf (step s iso (Event.leaveRoom sid room)).1 ∧
    PresenceInv (step s iso (Event.leaveRoom sid room)).1 := by
  obtain ⟨hnd, husid, huid⟩ := hwf
  cases hk : findSock s.sockets sid with
  | none =>
      simp only [step, hk]
      exact ⟨⟨hnd, husid, huid⟩, hinv⟩
  | some k =>
      have hksid : k.sid = sid := findSock_some_sid hk
      have hkmem : k ∈ s.sockets := findSock_some_mem hk
      have hguser : ∀ a : Socket,
          ((if a.sid = sid then { a with rooms := setDelete a.rooms room }
            else a) : Socket).username = a.username := by
        intro a
        by_cases h : a.sid = sid <;> simp [h]
      have hgsid : ∀ a : Socket,
          ((if a.sid = sid then { a with rooms := setDelete a.rooms room }
            else a) : Socket).sid = a.sid := by
        intro a
        by_cases h : a.sid = sid <;> simp [h]
      have husid2 : UniqSid { s with
          sockets := updateSock s.sockets sid
            (fun k0 => { k0 with rooms := setDelete k0.rooms room }) } := by
        intro k1 hk1 k2 hk2 hs
        simp only [updateSock] at hk1 hk2
        obtain ⟨a, ha, rfl⟩ := List.mem_map.mp hk1
        obtain ⟨b, hb, rfl⟩ := List.mem_map.mp hk2
        rw [hgsid a, hgsid b] at hs
        rw [husid a ha b hb hs]
      have huid2 : UniqIdent { s with
          sockets := updateSock s.sockets sid
            (fun k0 => { k0 with rooms := setDelete k0.rooms room }) } := by
        intro k1 hk1 k2 hk2 hs
        simp only [updateSock] at hk1 hk2
        obtain ⟨a, ha, rfl⟩ := List.mem_map.mp hk1
        obtain ⟨b, hb, rfl⟩ := List.mem_map.mp hk2
        rw [hguser a, hguser b] at hs
        rw [huid a ha b hb hs]
      have hmapne : ∀ room2 i, room2 ≠ room →
          hasLiveConn (updateSock s.sockets sid
            (fun k0 => { k0 with rooms := setDelete k0.rooms room })) room2 i
          = hasLiveConn s.sockets room2 i := by
        intro room2 i hr
        refine hasLiveConn_map_eq _ _ _ _ ?_
        intro a _
        refine ⟨hguser a, ?_⟩
        by_cases h : a.sid = sid
        · show memStr ((if a.sid = sid then
              ({ a with rooms := setDelete a.rooms room } : Socket)
              else a)).rooms room2 = memStr a.rooms room2
          rw [if_pos h]
          exact memStr_setDelete_ne _ hr
        · show memStr ((if a.sid = sid then
              ({ a with rooms := setDelete a.rooms room } : Socket)
              else a)).rooms room2 = memStr a.rooms room2
          rw [if_neg h]
      cases hl : lookupRoom s.activeUsers room with
      | none =>
          simp only [step, hk, hl]
          refine ⟨⟨hnd, husid2, huid2⟩, ?_⟩
          intro room2 i
          have hinv2 : memStr ((lookupRoom s.activeUsers room2).getD []) i =
              hasLiveConn s.sockets room2 i := hinv room2 i
          show memStr ((lookupRoom s.activeUsers room2).getD []) i
            = hasLiveConn (updateSock s.sockets sid
                (fun k0 => { k0 with rooms := setDelete k0.rooms room })) room2 i
          by_cases hr : room2 = room
          · rw [hr, hl]
            refine ((hasLiveConn_false_iff _ _ _).mpr ?_).symm
            intro b hb hbu
            simp only [updateSock] at hb
            obtain ⟨a, ha, rfl⟩ := List.mem_map.mp hb
            by_cases h : a.sid = sid
            · show memStr ((if a.sid = sid then
                  ({ a with rooms := setDelete a.rooms room } : Socket)
                  else a)).rooms room = false
              rw [if_pos h]
              exact memStr_setDelete_self _ _
            · show memStr ((if a.sid = sid then
                  ({ a with rooms := setDelete a.rooms room } : Socket)
                  else a)).rooms room = false
              rw [if_neg h]
              have hfalse : hasLiveConn s.sockets room a.username = false := by
                have h2 : memStr ((lookupRoom s.activeUsers room).getD [])
                    a.username = hasLiveConn s.sockets room a.username :=
                  hinv room a.username
                rw [hl] at h2
                exact h2.symm
              exact (hasLiveConn_false_iff _ _ _).mp hfalse a ha rfl
          · rw [hmapne room2 i hr]
            exact hinv2
      | some l =>
          simp only [step, hk, hl]
          have hknd : keysNodup
              (removePresence s.activeUsers room k.username l) = true := by
            unfold removePresence
            by_cases he : (setDelete l k.username).isEmpty = true
            · rw [if_pos he]
              exact keysNodup_deleteRoom _ _ hnd
            · rw [if_neg he]
              exact keysNodup_replaceRoom _ _ _ hnd
          refine ⟨⟨hknd, husid2, huid2⟩, ?_⟩
          intro room2 i
          have hinv2 : memStr ((lookupRoom s.activeUsers room2).getD []) i =
              hasLiveConn s.sockets room2 i := hinv room2 i
          show memStr ((lookupRoom
              (removePresence s.activeUsers room k.username l) room2).getD []) i
            = hasLiveConn (updateSock s.sockets sid
                (fun k0 => { k0 with rooms := setDelete k0.rooms room })) room2 i
          by_cases hr : room2 = room
          · rw [hr]
            by_cases hi : i = k.username
            · rw [hi]
              have hlhs : memStr ((lookupRoom
                  (removePresence s.activeUsers room k.username l) room).getD [])
                  k.username = false := by
                unfold removePresence
                by_cases he : (setDelete l k.username).isEmpty = true
                · rw [if_pos he, lookupRoom_deleteRoom_self]
                  rfl
                · rw [if_neg he, lookupRoom_replaceRoom_self, hl]
                  simp only [Option.getD_some]
                  exact memStr_setDelete_self _ _
              rw [hlhs]
              refine ((hasLiveConn_false_iff _ _ _).mpr ?_).symm
              intro b hb hbu
              simp only [updateSock] at hb
              obtain ⟨a, ha, rfl⟩ := List.mem_map.mp hb
              rw [hguser a] at hbu
              have ha_eq_k : a = k := huid a ha k hkmem hbu
              show memStr ((if a.sid = sid then
                  ({ a with rooms := setDelete a.rooms room } : Socket)
                  else a)).rooms room = false
              rw [if_pos (by rw [ha_eq_k]; exact hksid)]
              exact memStr_setDelete_self _ _
            · have hlhs : memStr ((lookupRoom
                  (removePresence s.activeUsers room k.username l) room).getD [])
                  i = memStr l i := by
                unfold removePresence
                by_cases he : (setDelete l k.username).isEmpty = true
                · rw [if_pos he, lookupRoom_deleteRoom_self,
                    memStr_false_of_setDelete_isEmpty he hi]
                  rfl
                · rw [if_neg he, lookupRoom_replaceRoom_self, hl]
                  simp only [Option.getD_some]
                  exact memStr_setDelete_ne _ hi
              rw [hlhs]
              have hpres : memStr l i = hasLiveConn s.sockets room i := by
                have h2 : memStr ((lookupRoom s.activeUsers room).getD []) i =
                    hasLiveConn s.sockets room i := hinv room i
                rw [hl] at h2
                exact h2
              rw [hpres]
              refine (hasLiveConn_map_eq_of_fixed _ _ _ _ (fun a _ => hguser a)
                ?_).symm
              intro a ha hai
              have hasid : ¬ a.sid = sid := by
                intro h
                have heq : a = k := husid a ha k hkmem (by rw [h, hksid])
                rw [heq] at hai
                exact hi hai.symm
              show (if a.sid = sid then
                  ({ a with rooms := setDelete a.rooms room } : Socket) else a) = a
              rw [if_neg hasid]
          · have hlook : lookupRoom
                (removePresence s.activeUsers room k.username l) room2 =
                lookupRoom s.activeUsers room2 := by
              unfold removePresence
              by_cases he : (setDelete l k.username).isEmpty = true
              · rw [if_pos he]
                exact lookupRoom_deleteRoom_ne _ hr
              · rw [if_neg he]
                exact lookupRoom_replaceRoom_ne _ _ hr
            rw [hlook, hinv2, hmapne room2 i hr]

theorem presence_step_disconnect (s : SrvState) (iso sid : String)
    (hwf : StateWf s) (hinv : PresenceInv s) :
    StateWf (step s iso (Event.disconnect sid)).1 ∧
    PresenceInv (step s iso (Event.disconnect sid)).1 := by
  obtain ⟨hnd, husid, huid⟩ := hwf
  cases hk : findSock s.sockets sid with
  | none =>
      simp only [step, hk]
      exact ⟨⟨hnd, husid, huid⟩, hinv⟩
  | some k =>
      simp only [step, hk]
      have hksid : k.sid = sid := findSock_some_sid hk
      have hkmem : k ∈ s.sockets := findSock_some_mem hk
      have hsub : ∀ b : Socket, b ∈ removeSock s.sockets sid →
          b ∈ s.sockets ∧ ¬ b.sid = sid := by
        intro b hb
        simp only [removeSock, List.mem_filter, decide_eq_true_eq] at hb
        exact hb
      refine ⟨⟨keysNodup_disconnectPresence _ _ hnd, ?_, ?_⟩, ?_⟩
      · intro k1 hk1 k2 hk2 hs
        exact husid k1 (hsub k1 hk1).1 k2 (hsub k2 hk2).1 hs
      · intro k1 hk1 k2 hk2 hs
        exact huid k1 (hsub k1 hk1).1 k2 (hsub k2 hk2).1 hs
      · intro room i
        show memStr ((lookupRoom
            (disconnectPresence s.activeUsers k.username) room).getD []) i
          = hasLiveConn (removeSock s.sockets sid) room i
        rw [memStr_lookup_disconnectPresence _ _ _ _ hnd]
        by_cases hi : i = k.username
        · rw [hi]
          simp only [decide_True, Bool.not_true, Bool.and_false]
          refine ((hasLiveConn_false_iff _ _ _).mpr ?_).symm
          intro b hb hbu
          exfalso
          have hbk : b = k := huid b (hsub b hb).1 k hkmem hbu
          exact (hsub b hb).2 (by rw [hbk]; exact hksid)
        · rw [decide_eq_false hi]
          simp only [Bool.not_false, Bool.and_true]
          have hinv2 : memStr ((lookupRoom s.activeUsers room).getD []) i =
              hasLiveConn s.sockets room i := hinv room i
          rw [hinv2]
          cases hlive : hasLiveConn s.sockets room i with
          | true =>
              obtain ⟨c, hc, hcu, hcr⟩ := (hasLiveConn_true_iff _ _ _).mp hlive
              refine ((hasLiveConn_true_iff _ _ _).mpr ⟨c, ?_, hcu, hcr⟩).symm
              simp only [removeSock, List.mem_filter, decide_eq_true_eq]
              refine ⟨hc, ?_⟩
              intro hcsid
              have hck : c = k := husid c hc k hkmem (by rw [hcsid, hksid])
              rw [hck] at hcu
              exact hi hcu.symm
          | false =>
              refine ((hasLiveConn_false_iff _ _ _).mpr ?_).symm
              intro b hb hbu
              exact (hasLiveConn_false_iff _ _ _).mp hlive b (hsub b hb).1 hbu

/-- Claim C2 as amended: the presence invariant — an identity appears in
a room's presence set iff some live connection bound to it has the room
in its joined-room set — is preserved by every event only under the
single-connection-per-identity discipline: states with distinct socket
ids and at most one live connection per identity, and accepted connects
introducing a fresh identity.  The unrestricted claim, in particular its
two-connections-same-identity scenario, fails: disconnecting one of two
connections bound to the same identity removes the identity from every
room's presence set even though the other connection remains joined. -/
theorem presence_invariant_preserved (s : SrvState) (iso : String) (e : Event)
    (hwf : StateWf s) (hinv : PresenceInv s) (hev : WfEvent s e) :
    StateWf (step s iso e).1 ∧ PresenceInv (step s iso e).1 := by
  cases e with
  | connect sid token vr =>
      obtain ⟨hsid, hu⟩ := hev
      exact presence_step_connect s iso sid token vr hwf hinv hsid hu
  | joinRoom sid room m =>
      exact presence_step_join s iso sid room m hwf hinv
  | message sid md persist now =>
      exact presence_step_message s iso sid md persist now hwf hinv
  | leaveRoom sid room =>
      exact presence_step_leave s iso sid room hwf hinv
  | disconnect sid =>
      exact presence_step_disconnect s iso sid hwf hinv

/-- Claim C2 counterexample: two connects bound to identity "alice", both
joined to "lobby"; after disconnecting one, "alice" is absent from the
presence set of "lobby" although the surviving connection is still bound
to "alice" and has "lobby" joined — the biconditional of the claim is
violated in both the stated invariant and its two-connection scenario. -/
theorem presence_invariant_counterexample :
    presenceOf
      (step (step (step (step (step ⟨[], [], []⟩ "t"
        (Event.connect "s1" (some "tok") (VerifyResult.ok "alice"))).1 "t"
        (Event.connect "s2" (some "tok") (VerifyResult.ok "alice"))).1 "t"
        (Event.joinRoom "s1" "lobby" MembershipResult.found)).1 "t"
        (Event.joinRoom "s2" "lobby" MembershipResult.found)).1 "t"
        (Event.disconnect "s1")).1 "lobby" "alice" = false
    ∧ hasLiveConn
      (step (step (step (step (step ⟨[], [], []⟩ "t"
        (Event.connect "s1" (some "tok") (VerifyResult.ok "alice"))).1 "t"
        (Event.connect "s2" (some "tok") (VerifyResult.ok "alice"))).1 "t"
        (Event.joinRoom "s1" "lobby" MembershipResult.found)).1 "t"
        (Event.joinRoom "s2" "lobby" MembershipResult.found)).1 "t"
        (Event.disconnect "s1")).1.sockets "lobby" "alice" = true := by
  constructor
  · decide
  · decide

/-- Witness for the amended C2: preservation applied to a concrete
well-formed single-connection state and a disconnect event. -/
theorem presence_invariant_preserved_witness :
    StateWf (step ⟨[⟨"s1", "alice", ["lobby"]⟩], [("lobby", ["alice"])], []⟩ "t"
        (Event.disconnect "s1")).1
    ∧ PresenceInv (step ⟨[⟨"s1", "alice", ["lobby"]⟩], [("lobby", ["alice"])], []⟩
        "t" (Event.disconnect "s1")).1 :=
  presence_invariant_preserved
    ⟨[⟨"s1", "alice", ["lobby"]⟩], [("lobby", ["alice"])], []⟩ "t"
    (Event.disconnect "s1")
    ⟨by decide,
     by
      intro k1 hk1 k2 hk2 h
      rw [List.mem_singleton] at hk1 hk2
      rw [hk1, hk2],
     by
      intro k1 hk1 k2 hk2 h
      rw [List.mem_singleton] at hk1 hk2
      rw [hk1, hk2]⟩
    (by
      intro room ident
      by_cases hr : "lobby" = room
      · by_cases hi : "alice" = ident
        · simp [presenceOf, hasLiveConn, lookupRoom, memStr, hr, hi]
        · simp [presenceOf, hasLiveConn, lookupRoom, memStr, hr, hi]
      · simp [presenceOf, hasLiveConn, lookupRoom, memStr, hr])
    trivial

end WsRelay
